import Mathlib

set_option autoImplicit false

/-!
Verification of the vCenter-to-NetBox synchronization pipeline
(netbox_obudozer/sync.py) against its natural-language specification.

The Python module is shallowly embedded: Django model instances become
records, Python dicts become association lists with overwrite-in-place
insertion (which is how CPython dicts behave), the datastore becomes an
explicit Store value threaded through the apply phase, and exceptions
raised by the datastore are modelled by boolean failure oracles so that
the try/except structure of the code becomes visible control flow.
-/

namespace Obudozer

/-- Values carried by one entry of a change set.  The Python code stores
either a string, a number, or None in the old/new slots of a change. -/
inductive Val where
  | vnone
  | vs (s : String)
  | vn (n : Nat)
  deriving DecidableEq, Repr

/-- One change entry: the old and the new value of a field, mirroring the
Python pair with keys old and new. -/
structure Change where
  old : Val
  new : Val
  deriving DecidableEq, Repr

/-- Insertion into a Python dict with string keys: if the key is present the
value is overwritten in place (CPython keeps the original position),
otherwise the pair is appended at the end. -/
def dictInsert {β : Type} (m : List (String × β)) (k : String) (v : β) :
    List (String × β) :=
  if m.any (fun p => p.1 == k) then
    m.map (fun p => if p.1 = k then (k, v) else p)
  else
    m ++ [(k, v)]

/-- Reading a Python dict with dict.get(k): the first (and, for dicts,
only) binding of the key, None when absent. -/
def dictGet {β : Type} : List (String × β) → String → Option β
  | [], _ => none
  | p :: t, k => if k = p.1 then some p.2 else dictGet t k

/-- A ChangeSet is the dict built by get_field_changes: field name to change
entry, in insertion order. -/
abbrev ChangeSet := List (String × Change)

/-- The custom_field_data attribute of a NetBox object: either absent
(None) or a dict from field name to a stored value which may itself be
None. -/
abbrev CFData := Option (List (String × Option String))

/-- Reading vm.custom_field_data.get(k) if vm.custom_field_data else None:
an absent map and an absent key and a stored None all read as None. -/
def cfGet (cfd : CFData) (k : String) : Option String :=
  match cfd with
  | none => none
  | some m => (dictGet m k).join

/-- Truthiness of an optional string in Python: None and the empty string
are falsy. -/
def truthy : Option String → Bool
  | none => false
  | some s => !(s == "")

/-- The Python expression o or d for an optional string o: yields d when o
is None or empty, else the string inside o. -/
def oror (o : Option String) (d : String) : String :=
  match o with
  | none => d
  | some s => if s == "" then d else s

/-- Embeds an optional string as a change-entry value. -/
def oVal : Option String → Val
  | none => Val.vnone
  | some s => Val.vs s

/-- Embeds an optional number as a change-entry value. -/
def nVal : Option Nat → Val
  | none => Val.vnone
  | some n => Val.vn n

/-- A disk descriptor coming from vCenter (one element of the disks list of
a VM description).  The thin_provisioned slot is an Option because the
Python code tests for key presence; the unused backend type key is not
modelled because sync.py never reads it. -/
structure DiskData where
  name : String
  size_mb : Nat
  thin_provisioned : Option Bool
  file_name : Option String
  deriving DecidableEq, Repr

/-- One VM description fetched from vCenter (one element of the list
returned by get_vcenter_vms).  All optional slots model dict.get on the
Python side. -/
structure VMData where
  name : String
  state : String
  vcenter_id : Option String
  vcenter_cluster : Option String
  vcpus : Option Nat
  memory : Option Nat
  ip_address : Option String
  tools_status : Option String
  vmtools_description : Option String
  vmtools_version_number : Option String
  os_pretty_name : Option String
  os_family_name : Option String
  os_distro_name : Option String
  os_distro_version : Option String
  os_kernel_version : Option String
  os_bitness : Option String
  disks : List DiskData
  deriving DecidableEq, Repr

/-- A NetBox VirtualMachine as far as sync.py reads and writes it: name,
status, the name of the referenced cluster, native numeric fields and the
custom field map. -/
structure VM where
  name : String
  status : String
  cluster_name : String
  vcpus : Option Nat
  memory : Option Nat
  custom_field_data : CFData
  deriving DecidableEq, Repr

/-- Reads the guest OS fields of a VM description by key string, as the
Python loop over os_fields does with vcenter_data.get(field_name). -/
def vmDataGet (d : VMData) (k : String) : Option String :=
  if k == "os_pretty_name" then d.os_pretty_name
  else if k == "os_family_name" then d.os_family_name
  else if k == "os_distro_name" then d.os_distro_name
  else if k == "os_distro_version" then d.os_distro_version
  else if k == "os_kernel_version" then d.os_kernel_version
  else if k == "os_bitness" then d.os_bitness
  else none

/-- The os_fields list from sync.py. -/
def os_fields : List String :=
  ["os_pretty_name", "os_family_name", "os_distro_name",
   "os_distro_version", "os_kernel_version", "os_bitness"]

/-- Direct translation of get_field_changes from sync.py.  Every let
corresponds to one statement; dictInsert models the dict assignment
changes[key] = pair. -/
def get_field_changes (vm : VM) (vcenter_data : VMData)
    (cluster_group_name : String) : ChangeSet :=
  let vcenter_status := if vcenter_data.state = "running" then "active" else "offline"
  let changes : ChangeSet := []
  let changes :=
    if vm.status ≠ vcenter_status then
      dictInsert changes "status" ⟨Val.vs vm.status, Val.vs vcenter_status⟩
    else changes
  let current_vcenter_id := cfGet vm.custom_field_data "vcenter_id"
  let new_vcenter_id := vcenter_data.vcenter_id
  let changes :=
    if truthy new_vcenter_id ∧ current_vcenter_id ≠ new_vcenter_id then
      dictInsert changes "vcenter_id" ⟨oVal current_vcenter_id, oVal new_vcenter_id⟩
    else changes
  let current_vcenter_cluster := cfGet vm.custom_field_data "vcenter_cluster"
  let new_vcenter_cluster := vcenter_data.vcenter_cluster
  let expected_cluster_name := oror new_vcenter_cluster cluster_group_name
  let changes :=
    if vm.cluster_name ≠ expected_cluster_name then
      dictInsert changes "vcenter_cluster" ⟨oVal current_vcenter_cluster, oVal new_vcenter_cluster⟩
    else if truthy new_vcenter_cluster ∧ current_vcenter_cluster ≠ new_vcenter_cluster then
      dictInsert changes "vcenter_cluster" ⟨oVal current_vcenter_cluster, oVal new_vcenter_cluster⟩
    else changes
  let changes :=
    if vm.vcpus ≠ vcenter_data.vcpus then
      dictInsert changes "vcpus" ⟨nVal vm.vcpus, nVal vcenter_data.vcpus⟩
    else changes
  let changes :=
    if vm.memory ≠ vcenter_data.memory then
      dictInsert changes "memory" ⟨nVal vm.memory, nVal vcenter_data.memory⟩
    else changes
  let current_ip := cfGet vm.custom_field_data "ip_address"
  let changes :=
    if current_ip ≠ vcenter_data.ip_address then
      dictInsert changes "ip_address" ⟨oVal current_ip, oVal vcenter_data.ip_address⟩
    else changes
  let current_tools_status := cfGet vm.custom_field_data "tools_status"
  let changes :=
    if current_tools_status ≠ vcenter_data.tools_status then
      dictInsert changes "tools_status" ⟨oVal current_tools_status, oVal vcenter_data.tools_status⟩
    else changes
  let current_vmtools_desc := cfGet vm.custom_field_data "vmtools_description"
  let changes :=
    if current_vmtools_desc ≠ vcenter_data.vmtools_description then
      dictInsert changes "vmtools_description"
        ⟨oVal current_vmtools_desc, oVal vcenter_data.vmtools_description⟩
    else changes
  let current_vmtools_ver := cfGet vm.custom_field_data "vmtools_version_number"
  let changes :=
    if current_vmtools_ver ≠ vcenter_data.vmtools_version_number then
      dictInsert changes "vmtools_version_number"
        ⟨oVal current_vmtools_ver, oVal vcenter_data.vmtools_version_number⟩
    else changes
  let changes := os_fields.foldl (fun cs field_name =>
    let current_value := cfGet vm.custom_field_data field_name
    let new_value := vmDataGet vcenter_data field_name
    if current_value ≠ new_value then
      dictInsert cs field_name ⟨oVal current_value, oVal new_value⟩
    else cs) changes
  let changes :=
    if vm.status = "failed" then
      dictInsert changes "status" ⟨Val.vs "failed", Val.vs vcenter_status⟩
    else changes
  changes

/-- The sync plan built by phase 2, with the four bucket lists of the
Python VMDiff class. -/
structure VMDiff where
  to_create : List VMData
  to_update : List (VM × ChangeSet)
  to_skip : List VM
  to_mark_missing : List VM
  deriving DecidableEq, Repr

/-- First pass of calculate_diff over the desired list.  The Python loop
appends to the bucket lists; recursing on the head and consing the result
onto the recursive value produces the same buckets in the same order. -/
def diffPass (existing_vms : List (String × VM)) (cluster_group_name : String) :
    List VMData → VMDiff
  | [] => ⟨[], [], [], []⟩
  | vm_data :: rest =>
    let d := diffPass existing_vms cluster_group_name rest
    match dictGet existing_vms vm_data.name with
    | some vm_record =>
      let changes := get_field_changes vm_record vm_data cluster_group_name
      if changes = [] then {d with to_skip := vm_record :: d.to_skip}
      else {d with to_update := (vm_record, changes) :: d.to_update}
    | none => {d with to_create := vm_data :: d.to_create}

/-- Direct translation of calculate_diff from sync.py: first pass over the
desired list, second pass over the existing map collecting entities that
are absent from the desired names and not already failed. -/
def calculate_diff (vcenter_vms : List VMData) (existing_vms : List (String × VM))
    (cluster_group_name : String) : VMDiff :=
  let d := diffPass existing_vms cluster_group_name vcenter_vms
  let vcenter_names := vcenter_vms.map VMData.name
  { d with to_mark_missing :=
      (existing_vms.filter (fun p =>
        !(vcenter_names.contains p.1) && !(p.2.status == "failed"))).map Prod.snd }

/-- A NetBox VirtualDisk as far as sync.py reads and writes it. -/
structure Disk where
  name : String
  size : Nat
  description : String
  deriving DecidableEq, Repr

/-- The write operations performed against the datastore during disk
reconciliation, recorded so that theorems can speak about which disk
records were touched. -/
inductive DiskOp where
  | created (name : String)
  | saved (name : String)
  | deleted (name : String)
  deriving DecidableEq, Repr

/-- The description string built for a disk by sync_vm_disks: a
provisioning label when the thin_provisioned key is present, a file path
part when the path is non-empty, joined by a comma. -/
def diskDescription (disk_data : DiskData) : String :=
  let parts :=
    (match disk_data.thin_provisioned with
     | some b => [if b then "Provisioning: Thin" else "Provisioning: Thick"]
     | none => []) ++
    (match disk_data.file_name with
     | some f => if f = "" then [] else ["File: " ++ f]
     | none => [])
  String.intercalate ", " parts

/-- The disk record resulting from creating a disk from its description,
or from updating every drifting attribute of an existing record. -/
def toDisk (disk_data : DiskData) : Disk :=
  ⟨disk_data.name, disk_data.size_mb, diskDescription disk_data⟩

/-- The per-description loop of sync_vm_disks.  existingNames is the key
set of the existing_disks snapshot taken before the loop; st is the live
disk set of the entity.  Saving a mutated disk object is modelled as
rewriting the record with the matching name. -/
def diskLoop (existingNames : List String) : List Disk → List DiskData →
    List Disk × List DiskOp
  | st, [] => (st, [])
  | st, disk_data :: rest =>
    let description := diskDescription disk_data
    if existingNames.contains disk_data.name then
      let changed := st.any (fun disk => disk.name == disk_data.name &&
        (disk.size != disk_data.size_mb || disk.description != description))
      let st2 :=
        if changed then
          st.map (fun disk =>
            if disk.name = disk_data.name then toDisk disk_data else disk)
        else st
      let r := diskLoop existingNames st2 rest
      (r.1, (if changed then [DiskOp.saved disk_data.name] else []) ++ r.2)
    else
      let r := diskLoop existingNames (st ++ [toDisk disk_data]) rest
      (r.1, DiskOp.created disk_data.name :: r.2)

/-- Direct translation of sync_vm_disks from sync.py, returning the final
disk set of the entity together with the datastore write operations: an
empty description list deletes everything, the loop updates or creates by
name, and the final pass deletes every snapshot disk whose name is absent
from the description names. -/
def sync_vm_disks (existing : List Disk) (vcenter_disks : List DiskData) :
    List Disk × List DiskOp :=
  if vcenter_disks.isEmpty then
    ([], existing.map (fun disk => DiskOp.deleted disk.name))
  else
    let existingNames := existing.map Disk.name
    let r := diskLoop existingNames existing vcenter_disks
    let vcenter_disk_names := vcenter_disks.map DiskData.name
    (r.1.filter (fun disk =>
        !(existingNames.contains disk.name) || vcenter_disk_names.contains disk.name),
     r.2 ++ (existing.filter (fun disk =>
        !(vcenter_disk_names.contains disk.name))).map
        (fun disk => DiskOp.deleted disk.name))

/-- A NetBox Cluster as far as sync.py touches it: name, owning group and
type (the status attribute set at creation is never read back). -/
structure Cluster where
  name : String
  group : String
  ctype : String
  deriving DecidableEq, Repr

/-- The slice of the NetBox datastore that the apply phase reads and
writes: virtual machines, clusters, cluster groups and per-VM disk
records. -/
structure Store where
  vms : List VM
  clusters : List Cluster
  groups : List String
  disks : List (String × List Disk)
  deriving DecidableEq, Repr

/-- Direct translation of get_or_create_cluster: fetch by name, create
with the given type and group when absent, reattach the group when it
differs. -/
def get_or_create_cluster (clusters : List Cluster) (cluster_name : String)
    (cluster_type : String) (cluster_group : String) : List Cluster :=
  match clusters.find? (fun c => c.name == cluster_name) with
  | some c =>
    if c.group ≠ cluster_group then
      clusters.map (fun c2 =>
        if c2.name = cluster_name then {c2 with group := cluster_group} else c2)
    else clusters
  | none => clusters ++ [⟨cluster_name, cluster_group, cluster_type⟩]

/-- The SyncResult counters and error list (the timing fields of the
Python class are not modelled). -/
structure SyncResult where
  created : Nat := 0
  updated : Nat := 0
  unchanged : Nat := 0
  marked_missing : Nat := 0
  errors : List String := []
  total_processed : Nat := 0
  deriving DecidableEq, Repr

/-- Failure oracles standing for the exceptions the datastore can raise
inside the try blocks of apply_changes, keyed by the name of the affected
entity. -/
structure Oracles where
  failCreate : String → Bool
  failUpdate : String → Bool
  failStamp : String → Bool
  failDisk : String → Bool

/-- The error message recorded when creating one VM fails. -/
def createErr (n : String) : String := "Ошибка создания VM " ++ n

/-- The error message recorded when updating one VM fails. -/
def updateErr (n : String) : String := "Ошибка обновления VM " ++ n

/-- The single error message of the mark-missing block; it names no
individual entity. -/
def markErr : String := "Ошибка пометки отсутствующих VM"

/-- The error message recorded when reconciling the disks of one VM
fails. -/
def diskErr (n : String) : String := "Ошибка синхронизации дисков для VM " ++ n

/-- The error recorded when the connectivity probe fails. -/
def connectErr : String := "Не удалось подключиться к vCenter"

/-- The error recorded when fetching data raises. -/
def fetchErr (e : String) : String := "Ошибка получения данных: " ++ e

/-- The record written by the create branch of apply_changes for one
description: derived status, resolved cluster name, native fields, and
the full extension map including the last-synced stamp. -/
def created_vm (vm_data : VMData) (cluster_group_name : String)
    (sync_time : String) : VM :=
  { name := vm_data.name
  , status := if vm_data.state = "running" then "active" else "offline"
  , cluster_name := oror vm_data.vcenter_cluster cluster_group_name
  , vcpus := vm_data.vcpus
  , memory := vm_data.memory
  , custom_field_data := some
      [("vcenter_id", vm_data.vcenter_id),
       ("last_synced", some sync_time),
       ("vcenter_cluster", vm_data.vcenter_cluster),
       ("ip_address", vm_data.ip_address),
       ("tools_status", vm_data.tools_status),
       ("vmtools_description", vm_data.vmtools_description),
       ("vmtools_version_number", vm_data.vmtools_version_number),
       ("os_pretty_name", vm_data.os_pretty_name),
       ("os_family_name", vm_data.os_family_name),
       ("os_distro_name", vm_data.os_distro_name),
       ("os_distro_version", vm_data.os_distro_version),
       ("os_kernel_version", vm_data.os_kernel_version),
       ("os_bitness", vm_data.os_bitness)] }

/-- One iteration of the create loop of apply_changes; the whole try body
is guarded by the failCreate oracle. -/
def createStep (o : Oracles)
    (cluster_type cluster_group cluster_group_name sync_time : String)
    (acc : Store × SyncResult) (vm_data : VMData) : Store × SyncResult :=
  if o.failCreate vm_data.name then
    (acc.1, {acc.2 with errors := acc.2.errors ++ [createErr vm_data.name]})
  else
    let vcenter_cluster_name := oror vm_data.vcenter_cluster cluster_group_name
    let clusters := get_or_create_cluster acc.1.clusters vcenter_cluster_name
      cluster_type cluster_group
    ({acc.1 with
        clusters := clusters
        vms := acc.1.vms ++ [created_vm vm_data cluster_group_name sync_time]},
     {acc.2 with created := acc.2.created + 1})

/-- The custom_fields list from the update loop of apply_changes. -/
def custom_fields : List String :=
  ["vcenter_id", "ip_address", "tools_status",
   "vmtools_description", "vmtools_version_number",
   "os_pretty_name", "os_family_name", "os_distro_name",
   "os_distro_version", "os_kernel_version", "os_bitness"]

/-- Change-entry values written back into the extension map are strings or
None for every key that branch is reached with; a numeric value is
stringified only to keep the function total. -/
def valToOptStr : Val → Option String
  | Val.vnone => none
  | Val.vs s => some s
  | Val.vn n => some (toString n)

/-- Writing one key of vm.custom_field_data (the dict is created first
when it is None), as the assignment vm.custom_field_data[k] = v does. -/
def cfSet (cfd : CFData) (k : String) (v : Option String) : CFData :=
  some (dictInsert (cfd.getD []) k v)

/-- Native attribute assignment for the built-in fields reached by the
update loop (status, vcpus, memory); change entries for these keys always
carry values of the matching shape. -/
def setNative (vm : VM) (field_name : String) (v : Val) : VM :=
  if field_name = "status" then
    match v with
    | Val.vs s => {vm with status := s}
    | _ => vm
  else if field_name = "vcpus" then
    match v with
    | Val.vn n => {vm with vcpus := some n}
    | Val.vnone => {vm with vcpus := none}
    | _ => vm
  else if field_name = "memory" then
    match v with
    | Val.vn n => {vm with memory := some n}
    | Val.vnone => {vm with memory := none}
    | _ => vm
  else vm

/-- Application of one change entry inside the update loop of
apply_changes. -/
def applyOneChange (cluster_type cluster_group cluster_group_name : String)
    (acc : VM × List Cluster) (fc : String × Change) : VM × List Cluster :=
  if fc.1 = "vcenter_cluster" then
    let newHint := valToOptStr fc.2.new
    let vm := {acc.1 with
      custom_field_data := cfSet acc.1.custom_field_data "vcenter_cluster" newHint}
    let new_vcenter_cluster := oror newHint cluster_group_name
    let clusters := get_or_create_cluster acc.2 new_vcenter_cluster
      cluster_type cluster_group
    ({vm with cluster_name := new_vcenter_cluster}, clusters)
  else if custom_fields.contains fc.1 then
    ({acc.1 with
      custom_field_data := cfSet acc.1.custom_field_data fc.1 (valToOptStr fc.2.new)},
     acc.2)
  else
    (setNative acc.1 fc.1 fc.2.new, acc.2)

/-- One iteration of the update loop of apply_changes: apply every change
entry, stamp last_synced, save (modelled as replacing the record with the
matching name), all guarded by the failUpdate oracle. -/
def updateStep (o : Oracles)
    (cluster_type cluster_group cluster_group_name sync_time : String)
    (acc : Store × SyncResult) (item : VM × ChangeSet) : Store × SyncResult :=
  if o.failUpdate item.1.name then
    (acc.1, {acc.2 with errors := acc.2.errors ++ [updateErr item.1.name]})
  else
    let r := item.2.foldl
      (applyOneChange cluster_type cluster_group cluster_group_name)
      (item.1, acc.1.clusters)
    let vm2 := {r.1 with
      custom_field_data := cfSet r.1.custom_field_data "last_synced" (some sync_time)}
    ({acc.1 with
        clusters := r.2
        vms := acc.1.vms.map (fun w => if w.name = item.1.name then vm2 else w)},
     {acc.2 with updated := acc.2.updated + 1})

/-- Stamping last_synced on one entity during the mark-missing loop. -/
def stampVM (sync_time : String) (vm : VM) : VM :=
  {vm with custom_field_data := cfSet vm.custom_field_data "last_synced" (some sync_time)}

/-- The per-entity save loop inside the single try of the mark-missing
block: the first failing save raises, aborting the remaining entities; the
Bool reports whether the loop ran to completion. -/
def stampLoop (o : Oracles) (sync_time : String) : List String → List VM →
    List VM × Bool
  | [], vms => (vms, true)
  | n :: rest, vms =>
    if o.failStamp n then (vms, false)
    else stampLoop o sync_time rest
      (vms.map (fun w => if w.name = n then stampVM sync_time w else w))

/-- The mark-missing block of apply_changes: one try around the bulk
status update, the stamping loop and the counter assignment; a failure
anywhere in the block falls through to the single except, which appends
one generic error and leaves marked_missing untouched. -/
def markPhase (o : Oracles) (sync_time : String) (missing_names : List String)
    (st : Store) (r : SyncResult) : Store × SyncResult :=
  if missing_names.isEmpty then (st, r)
  else
    let vms1 := st.vms.map (fun w =>
      if missing_names.contains w.name then {w with status := "failed"} else w)
    let stampNames := (vms1.filter (fun w => missing_names.contains w.name)).map VM.name
    let r2 := stampLoop o sync_time stampNames vms1
    if r2.2 then
      ({st with vms := r2.1}, {r with marked_missing := missing_names.length})
    else
      ({st with vms := r2.1}, {r with errors := r.errors ++ [markErr]})

/-- Python dict comprehension over the description list keyed by name:
later entries win. -/
def lookupLast (vms : List VMData) (n : String) : Option VMData :=
  vms.reverse.find? (fun d => d.name == n)

/-- The disk records of one entity in the store. -/
def getDisks (st : Store) (n : String) : List Disk :=
  (dictGet st.disks n).getD []

/-- Replacing the disk records of one entity in the store. -/
def setDisks (st : Store) (n : String) (ds : List Disk) : Store :=
  {st with disks := dictInsert st.disks n ds}

/-- One iteration of the disk synchronization loop of apply_changes,
guarded per entity by the failDisk oracle; an exception is modelled as
leaving the disk records of that entity untouched. -/
def diskStep (o : Oracles) (vcenter_vms : List VMData)
    (acc : Store × SyncResult) (w : VM) : Store × SyncResult :=
  if o.failDisk w.name then
    (acc.1, {acc.2 with errors := acc.2.errors ++ [diskErr w.name]})
  else
    match lookupLast vcenter_vms w.name with
    | some vm_data =>
      (setDisks acc.1 w.name (sync_vm_disks (getDisks acc.1 w.name) vm_data.disks).1,
       acc.2)
    | none => acc

/-- The entities whose cluster belongs to the given cluster group. -/
def groupVMs (st : Store) (cluster_group : String) : List VM :=
  st.vms.filter (fun w =>
    (st.clusters.find? (fun c => c.name == w.cluster_name)).any
      (fun c => c.group == cluster_group))

/-- Direct translation of apply_changes from sync.py: create loop, update
loop, unchanged assignment, mark-missing block, disk loop over every
entity of the cluster group, and the final total_processed assignment.
The surrounding transaction has no further observable effect in this model
because every datastore exception is caught inside the function. -/
def apply_changes (o : Oracles)
    (cluster_type cluster_group cluster_group_name sync_time : String)
    (diff : VMDiff) (vcenter_vms : List VMData) (st : Store)
    (result : SyncResult) : Store × SyncResult :=
  let a1 := diff.to_create.foldl
    (createStep o cluster_type cluster_group cluster_group_name sync_time) (st, result)
  let a2 := diff.to_update.foldl
    (updateStep o cluster_type cluster_group cluster_group_name sync_time) a1
  let a2r := {a2.2 with unchanged := diff.to_skip.length}
  let a3 := markPhase o sync_time (diff.to_mark_missing.map VM.name) a2.1 a2r
  let a4 := (groupVMs a3.1 cluster_group).foldl (diskStep o vcenter_vms) a3
  (a4.1, {a4.2 with total_processed :=
      diff.to_create.length + diff.to_update.length + diff.to_skip.length})

/-- The ambient collaborators of the orchestrator: connectivity probe,
plugin configuration values, the fetch result (a raised exception is an
error value), the recency ordering of the datastore and the timestamp
parser used by the status query. -/
structure SyncEnv where
  probeOk : Bool
  cluster_type_value : String
  cluster_group_name : String
  fetch : Except String (List VMData)
  orderByUpdated : List VM → List VM
  parseDate : String → Option String

/-- Direct translation of sync_vcenter_vms (timing, logging and the custom
field schema bootstrap have no observable effect on this model): probe,
ensure the cluster group exists, fetch, build the existing map (the dict
comprehension keeps the last binding of a name, modelled by reversing),
diff, apply. -/
def sync_vcenter_vms (env : SyncEnv) (o : Oracles) (sync_time : String)
    (st : Store) : Store × SyncResult :=
  let result : SyncResult := {}
  if !env.probeOk then
    (st, {result with errors := [connectErr]})
  else
    let cluster_group_name := env.cluster_group_name
    let st2 := {st with groups :=
      if st.groups.contains cluster_group_name then st.groups
      else st.groups ++ [cluster_group_name]}
    match env.fetch with
    | Except.error e => (st2, {result with errors := [fetchErr e]})
    | Except.ok vcenter_vms =>
      let existing_vms := st2.vms.reverse.map (fun vm => (vm.name, vm))
      let diff := calculate_diff vcenter_vms existing_vms cluster_group_name
      apply_changes o env.cluster_type_value cluster_group_name cluster_group_name
        sync_time diff vcenter_vms st2 result

/-- The dict returned by get_sync_status. -/
structure StatusSnapshot where
  total_vms : Nat
  active_vms : Nat
  offline_vms : Nat
  failed_vms : Nat
  vcenter_available : Bool
  last_sync : Option String
  cluster_count : Nat
  deriving DecidableEq, Repr

/-- Direct translation of get_sync_status: resolve the group name, return
the zero snapshot when the cluster group does not exist (the DoesNotExist
branch), otherwise count entities by status, report the probe, and
best-effort parse the most recent last-synced stamp. -/
def get_sync_status (env : SyncEnv) (st : Store)
    (cluster_group_name : Option String) : StatusSnapshot :=
  let name := cluster_group_name.getD env.cluster_group_name
  if st.groups.contains name then
    let vms := groupVMs st name
    { total_vms := vms.length
    , active_vms := (vms.filter (fun w => w.status == "active")).length
    , offline_vms := (vms.filter (fun w => w.status == "offline")).length
    , failed_vms := (vms.filter (fun w => w.status == "failed")).length
    , vcenter_available := env.probeOk
    , last_sync :=
        match (env.orderByUpdated vms).head? with
        | some vm =>
          match cfGet vm.custom_field_data "last_synced" with
          | some s => if s = "" then none else env.parseDate s
          | none => none
        | none => none
    , cluster_count := (st.clusters.filter (fun c => c.group == name)).length }
  else
    { total_vms := 0, active_vms := 0, offline_vms := 0, failed_vms := 0
    , vcenter_available := env.probeOk, last_sync := none, cluster_count := 0 }

/-- A minimal description used by the concrete witnesses. -/
def sampleData (n : String) : VMData :=
  ⟨n, "running", none, none, none, none, none, none, none, none,
   none, none, none, none, none, none, []⟩

/-- A minimal entity used by the concrete witnesses. -/
def sampleVM (n st cl : String) : VM :=
  ⟨n, st, cl, none, none, none⟩

/-- The oracle of a run with no datastore failures. -/
def noFail : Oracles :=
  ⟨fun _ => false, fun _ => false, fun _ => false, fun _ => false⟩

/-- An oracle failing exactly on the given name during creation. -/
def failCreateOn (bad : String) : Oracles :=
  ⟨fun n => n == bad, fun _ => false, fun _ => false, fun _ => false⟩

/-- An oracle failing exactly on the given name inside the mark-missing
stamping loop. -/
def failStampOn (bad : String) : Oracles :=
  ⟨fun _ => false, fun _ => false, fun n => n == bad, fun _ => false⟩

section DictLemmas

variable {β : Type}

theorem dictGet_append (k : String) (l1 l2 : List (String × β)) :
    dictGet (l1 ++ l2) k =
      match dictGet l1 k with
      | some v => some v
      | none => dictGet l2 k := by
  induction l1 with
  | nil => simp [dictGet]
  | cons p t ih =>
    by_cases hk : k = p.1 <;> simp [dictGet, hk, ih]

theorem dictGet_map_overwrite (k : String) (v : β) (m : List (String × β)) :
    dictGet (m.map (fun p => if p.1 = k then (k, v) else p)) k =
      if m.any (fun p => p.1 == k) then some v else none := by
  induction m with
  | nil => simp [dictGet]
  | cons p t ih =>
    by_cases hk : p.1 = k
    · simp [dictGet, hk]
    · have hk2 : ¬ k = p.1 := fun e => hk e.symm
      have hb : (p.1 == k) = false := by simpa using hk
      simp only [List.map_cons, if_neg hk, dictGet, if_neg hk2, List.any_cons, hb,
        Bool.false_or]
      exact ih

theorem dictGet_dictInsert_self (m : List (String × β)) (k : String) (v : β) :
    dictGet (dictInsert m k v) k = some v := by
  unfold dictInsert
  by_cases h : m.any (fun p => p.1 == k) = true
  · rw [if_pos h, dictGet_map_overwrite, if_pos h]
  · rw [if_neg h, dictGet_append]
    have hnone : dictGet m k = none := by
      induction m with
      | nil => rfl
      | cons p t ih =>
        simp only [List.any_cons, Bool.or_eq_true, not_or] at h
        have hk : ¬ k = p.1 := by
          intro e; exact h.1 (by simp [e])
        simp only [dictGet, if_neg hk]
        exact ih h.2
    rw [hnone]
    simp [dictGet]

theorem dictGet_map_overwrite_ne (m : List (String × β)) (k k' : String) (v : β)
    (h : ¬ k = k') :
    dictGet (m.map (fun p => if p.1 = k then (k, v) else p)) k' = dictGet m k' := by
  induction m with
  | nil => rfl
  | cons p t ih =>
    by_cases hk : p.1 = k
    · have hk2 : ¬ k' = k := fun e => h e.symm
      have hk3 : ¬ k' = p.1 := by rw [hk]; exact hk2
      simp [dictGet, hk, hk2, hk3, ih]
    · by_cases hk4 : k' = p.1 <;> simp [dictGet, hk, hk4, ih]

theorem dictGet_dictInsert_ne (m : List (String × β)) (k k' : String) (v : β)
    (h : ¬ k = k') : dictGet (dictInsert m k v) k' = dictGet m k' := by
  unfold dictInsert
  split
  · exact dictGet_map_overwrite_ne m k k' v h
  · rw [dictGet_append]
    have hlast : dictGet [(k, v)] k' = none := by
      have : ¬ k' = k := fun e => h e.symm
      simp [dictGet, this]
    rw [hlast]
    cases dictGet m k' <;> rfl

end DictLemmas

section FilterLemmas

variable {β : Type}

theorem filter_map_overwrite_ne (m : List (String × β)) (k k' : String) (v : β)
    (h : ¬ k = k') :
    (m.map (fun p => if p.1 = k then (k, v) else p)).filter (fun p => p.1 == k') =
      m.filter (fun p => p.1 == k') := by
  induction m with
  | nil => rfl
  | cons p t ih =>
    by_cases hk : p.1 = k
    · have hb : (p.1 == k') = false := by simp [hk]; exact h
      have hb2 : (k == k') = false := by simpa using h
      simp [hk, hb, hb2, ih]
    · by_cases hk2 : (p.1 == k') = true <;> simp [hk, hk2, ih]

theorem filter_dictInsert_ne (m : List (String × β)) (k k' : String) (v : β)
    (h : ¬ k = k') :
    (dictInsert m k v).filter (fun p => p.1 == k') =
      m.filter (fun p => p.1 == k') := by
  unfold dictInsert
  split
  · exact filter_map_overwrite_ne m k k' v h
  · rw [List.filter_append]
    have : ([(k, v)].filter (fun p => p.1 == k')) = [] := by
      have : (k == k') = false := by simpa using h
      simp [this]
    rw [this, List.append_nil]

theorem any_map_overwrite_ne (m : List (String × β)) (k k' : String) (v : β)
    (h : ¬ k = k') :
    (m.map (fun p => if p.1 = k then (k, v) else p)).any (fun p => p.1 == k') =
      m.any (fun p => p.1 == k') := by
  induction m with
  | nil => rfl
  | cons p t ih =>
    by_cases hk : p.1 = k
    · have hb : (p.1 == k') = false := by simp [hk]; exact h
      have hb2 : (k == k') = false := by simpa using h
      simp [hk, hb, hb2, ih]
    · simp [hk, ih]

theorem any_dictInsert_ne (m : List (String × β)) (k k' : String) (v : β)
    (h : ¬ k = k') :
    (dictInsert m k v).any (fun p => p.1 == k') = m.any (fun p => p.1 == k') := by
  unfold dictInsert
  split
  · exact any_map_overwrite_ne m k k' v h
  · have hb2 : (k == k') = false := by simpa using h
    simp [hb2]

theorem filter_dictInsert_self_fresh (m : List (String × β)) (k : String) (v : β)
    (h : m.any (fun p => p.1 == k) = false) :
    (dictInsert m k v).filter (fun p => p.1 == k) = [(k, v)] := by
  unfold dictInsert
  rw [if_neg (by simp [h]), List.filter_append]
  have hm : (m.filter (fun p => p.1 == k)) = [] := by
    induction m with
    | nil => rfl
    | cons p t ih =>
      simp only [List.any_cons, Bool.or_eq_false_iff] at h
      simp [h.1, ih h.2]
  simp [hm]

end FilterLemmas

/-- Characterization of the grouping entries of a change set: the filter of
the change set at the vcenter_cluster key is a singleton carrying the raw
hint of the description as the new value exactly when one of the two
triggers of get_field_changes holds, and empty otherwise. -/
theorem cluster_filter_char (vm : VM) (vcenter_data : VMData)
    (cluster_group_name : String) :
    (get_field_changes vm vcenter_data cluster_group_name).filter
        (fun p => p.1 == "vcenter_cluster") =
      (if vm.cluster_name ≠ oror vcenter_data.vcenter_cluster cluster_group_name then
        [("vcenter_cluster",
          ⟨oVal (cfGet vm.custom_field_data "vcenter_cluster"),
           oVal vcenter_data.vcenter_cluster⟩)]
       else if truthy vcenter_data.vcenter_cluster ∧
          cfGet vm.custom_field_data "vcenter_cluster" ≠ vcenter_data.vcenter_cluster then
        [("vcenter_cluster",
          ⟨oVal (cfGet vm.custom_field_data "vcenter_cluster"),
           oVal vcenter_data.vcenter_cluster⟩)]
       else []) := by
  simp only [get_field_changes, os_fields, List.foldl]
  simp [apply_ite (fun l : ChangeSet => l.filter (fun p => p.1 == "vcenter_cluster")),
        apply_ite (fun l : ChangeSet => l.any (fun p => p.1 == "vcenter_cluster")),
        filter_dictInsert_ne, filter_dictInsert_self_fresh, any_dictInsert_ne]

/-- C5: whenever the resolved cluster name of the entity differs from the
expected grouping name (the hint of the description, or the default
grouping name when the hint is absent in the Python truthiness sense), or
the explicit (non-empty) hint of the description differs from the hint
last recorded in the extension map, the change set carries exactly one
vcenter_cluster entry, and its new value is the raw hint of the
description, possibly None, never the resolved default. -/
theorem C5_grouping_entry (vm : VM) (vcenter_data : VMData)
    (cluster_group_name : String)
    (h : vm.cluster_name ≠ oror vcenter_data.vcenter_cluster cluster_group_name ∨
      (truthy vcenter_data.vcenter_cluster ∧
        cfGet vm.custom_field_data "vcenter_cluster" ≠ vcenter_data.vcenter_cluster)) :
    (get_field_changes vm vcenter_data cluster_group_name).filter
        (fun p => p.1 == "vcenter_cluster") =
      [("vcenter_cluster",
        ⟨oVal (cfGet vm.custom_field_data "vcenter_cluster"),
         oVal vcenter_data.vcenter_cluster⟩)] := by
  rw [cluster_filter_char]
  rcases h with hA | hB
  · rw [if_pos hA]
  · by_cases hA2 : vm.cluster_name ≠ oror vcenter_data.vcenter_cluster cluster_group_name
    · rw [if_pos hA2]
    · rw [if_neg hA2, if_pos hB]

/-- Witness for C5: an entity whose cluster still carries an unrelated
name, against a description with no hint, yields the single grouping entry
with a None new value. -/
theorem C5_grouping_entry_witness :
    (get_field_changes
      ⟨"vm01", "active", "legacy", some 2, some 1024, none⟩
      ⟨"vm01", "running", none, none, some 2, some 1024, none, none, none, none,
        none, none, none, none, none, none, []⟩ "g").filter
        (fun p => p.1 == "vcenter_cluster") =
      [("vcenter_cluster", ⟨Val.vnone, Val.vnone⟩)] := by
  have := C5_grouping_entry
    ⟨"vm01", "active", "legacy", some 2, some 1024, none⟩
    ⟨"vm01", "running", none, none, some 2, some 1024, none, none, none, none,
      none, none, none, none, none, none, []⟩ "g"
    (Or.inl (by decide))
  simpa using this

/-- C2: for an entity whose current status is failed, get_field_changes
always returns a change set whose status entry maps failed to the status
derived from the power state of the description (active when running,
otherwise offline), regardless of every other field. -/
theorem C2_failed_revival (vm : VM) (vcenter_data : VMData)
    (cluster_group_name : String) (h : vm.status = "failed") :
    dictGet (get_field_changes vm vcenter_data cluster_group_name) "status" =
      some ⟨Val.vs "failed",
        Val.vs (if vcenter_data.state = "running" then "active" else "offline")⟩ := by
  simp only [get_field_changes, h]
  simp [dictGet_dictInsert_self]

/-- Witness for C2 at a concrete failed entity and a running description. -/
theorem C2_failed_revival_witness :
    dictGet (get_field_changes
      ⟨"vm01", "failed", "g", some 2, some 1024, none⟩
      ⟨"vm01", "running", none, none, some 2, some 1024, none, none, none, none,
        none, none, none, none, none, none, []⟩ "g") "status" =
      some ⟨Val.vs "failed", Val.vs "active"⟩ := by
  have := C2_failed_revival
    ⟨"vm01", "failed", "g", some 2, some 1024, none⟩
    ⟨"vm01", "running", none, none, some 2, some 1024, none, none, none, none,
      none, none, none, none, none, none, []⟩ "g" rfl
  simpa using this

/-- C3: get_field_changes emits a vcenter_id entry exactly when the remote
identifier in the description is non-empty (in the Python truthiness sense)
and differs from the value stored in the extension map of the entity; in
particular a stored remote identifier is never overwritten by an empty or
missing one. -/
theorem C3_remote_id (vm : VM) (vcenter_data : VMData)
    (cluster_group_name : String) :
    dictGet (get_field_changes vm vcenter_data cluster_group_name) "vcenter_id" =
      (if truthy vcenter_data.vcenter_id ∧
          cfGet vm.custom_field_data "vcenter_id" ≠ vcenter_data.vcenter_id
       then some ⟨oVal (cfGet vm.custom_field_data "vcenter_id"),
                  oVal vcenter_data.vcenter_id⟩
       else none) := by
  simp only [get_field_changes, os_fields, List.foldl]
  simp [apply_ite (fun l => dictGet l "vcenter_id"),
        dictGet_dictInsert_self, dictGet_dictInsert_ne, dictGet]

theorem diffPass_to_create (E : List (String × VM)) (g : String) (V : List VMData) :
    (diffPass E g V).to_create = V.filter (fun d => (dictGet E d.name).isNone) := by
  induction V with
  | nil => rfl
  | cons d rest ih =>
    cases h : dictGet E d.name with
    | none => simp [diffPass, h, ih]
    | some vm =>
      simp only [diffPass, h]
      split <;> simp [ih, h]

theorem diffPass_to_update (E : List (String × VM)) (g : String) (V : List VMData) :
    (diffPass E g V).to_update = V.filterMap (fun d =>
      match dictGet E d.name with
      | some vm =>
        if get_field_changes vm d g = [] then none
        else some (vm, get_field_changes vm d g)
      | none => none) := by
  induction V with
  | nil => rfl
  | cons d rest ih =>
    simp only [diffPass]
    cases h : dictGet E d.name with
    | none => simp [h, ih]
    | some vm =>
      by_cases hc : get_field_changes vm d g = [] <;> simp [h, hc, ih]

theorem diffPass_to_skip (E : List (String × VM)) (g : String) (V : List VMData) :
    (diffPass E g V).to_skip = V.filterMap (fun d =>
      match dictGet E d.name with
      | some vm => if get_field_changes vm d g = [] then some vm else none
      | none => none) := by
  induction V with
  | nil => rfl
  | cons d rest ih =>
    simp only [diffPass]
    cases h : dictGet E d.name with
    | none => simp [h, ih]
    | some vm =>
      by_cases hc : get_field_changes vm d g = [] <;> simp [h, hc, ih]

/-- C1: the plan partitions the inputs by name-keyed matching — the
to-create bucket is exactly the desired items with no existing entry, a
matched item lands in to-update exactly when its change set is non-empty
and in to-skip otherwise, and an existing entity lands in to-mark-missing
exactly when its name is absent from the desired names and its status is
not already failed. -/
theorem C1_plan_partition (vcenter_vms : List VMData)
    (existing_vms : List (String × VM)) (cluster_group_name : String)
    (hvm : (existing_vms.map Prod.snd).Nodup) :
    ((calculate_diff vcenter_vms existing_vms cluster_group_name).to_create =
        vcenter_vms.filter (fun d => (dictGet existing_vms d.name).isNone)) ∧
    ((calculate_diff vcenter_vms existing_vms cluster_group_name).to_update =
        vcenter_vms.filterMap (fun d =>
          match dictGet existing_vms d.name with
          | some vm =>
            if get_field_changes vm d cluster_group_name = [] then none
            else some (vm, get_field_changes vm d cluster_group_name)
          | none => none)) ∧
    ((calculate_diff vcenter_vms existing_vms cluster_group_name).to_skip =
        vcenter_vms.filterMap (fun d =>
          match dictGet existing_vms d.name with
          | some vm =>
            if get_field_changes vm d cluster_group_name = [] then some vm else none
          | none => none)) ∧
    (∀ p ∈ existing_vms,
      (p.2 ∈ (calculate_diff vcenter_vms existing_vms cluster_group_name).to_mark_missing ↔
        (p.1 ∉ vcenter_vms.map VMData.name ∧ p.2.status ≠ "failed"))) := by
  refine ⟨diffPass_to_create _ _ _, diffPass_to_update _ _ _, diffPass_to_skip _ _ _, ?_⟩
  intro p hp
  constructor
  · intro hmem
    simp only [calculate_diff, List.mem_map, List.mem_filter] at hmem
    obtain ⟨r, ⟨hrE, hq⟩, hsnd⟩ := hmem
    have hrp : r = p := List.inj_on_of_nodup_map hvm hrE hp hsnd
    subst hrp
    simp only [Bool.and_eq_true, Bool.not_eq_true'] at hq
    constructor
    · simpa using hq.1
    · simpa using hq.2
  · intro ⟨hn, hs⟩
    simp only [calculate_diff, List.mem_map]
    refine ⟨p, ?_, rfl⟩
    simp only [List.mem_filter]
    refine ⟨hp, ?_⟩
    simp [hn, hs]

/-- Witness for C1 at a one-element desired list against a one-element
existing map: the unmatched description is created and the absent active
entity is marked missing. -/
theorem C1_plan_partition_witness :
    ((calculate_diff [sampleData "vm02"] [("old1", sampleVM "old1" "active" "g")]
        "g").to_create = [sampleData "vm02"]) ∧
    sampleVM "old1" "active" "g" ∈
      (calculate_diff [sampleData "vm02"] [("old1", sampleVM "old1" "active" "g")]
        "g").to_mark_missing := by
  have h := C1_plan_partition [sampleData "vm02"]
    [("old1", sampleVM "old1" "active" "g")] "g" (by decide)
  refine ⟨?_, ?_⟩
  · rw [h.1]; decide
  · exact (h.2.2.2 ("old1", sampleVM "old1" "active" "g") (by simp)).2
      ⟨by decide, by decide⟩

section DiskLemmas

/-- No description in the list carries the given name, so the search by
name fails. -/
theorem find_name_none (rest : List DiskData) (n : String)
    (h : n ∉ rest.map DiskData.name) :
    rest.find? (fun dd2 => dd2.name == n) = none := by
  rw [List.find?_eq_none]
  intro dd2 hdd2
  simp only [beq_iff_eq]
  intro he
  exact h (he ▸ List.mem_map_of_mem DiskData.name hdd2)

/-- The final disk set computed by the loop of sync_vm_disks: every live
record whose name carries a (unique) description is rewritten to that
description, and a record is created for every description whose name is
absent from the snapshot names. -/
theorem diskLoop_fst_eq (ex : List String) (dds : List DiskData) :
    ∀ st : List Disk,
    (dds.map DiskData.name).Nodup →
    (∀ disk ∈ st, disk.name ∉ ex → disk.name ∉ dds.map DiskData.name) →
    (diskLoop ex st dds).1 =
      st.map (fun disk =>
        match dds.find? (fun dd => dd.name == disk.name) with
        | some dd => toDisk dd
        | none => disk) ++
      (dds.filter (fun dd => !(ex.contains dd.name))).map toDisk := by
  induction dds with
  | nil =>
    intro st _ _
    have h0 : (diskLoop ex st []).1 = st := rfl
    rw [h0]
    simp
  | cons dd rest ih =>
    intro st hdds hst
    rw [List.map_cons, List.nodup_cons] at hdds
    have hfr : rest.find? (fun dd2 => dd2.name == dd.name) = none :=
      find_name_none rest dd.name hdds.1
    by_cases hmem : dd.name ∈ ex
    · have hc : ex.contains dd.name = true := by simpa using hmem
      have hcre : ((dd :: rest).filter (fun dd2 => !(ex.contains dd2.name))) =
          (rest.filter (fun dd2 => !(ex.contains dd2.name))) := by
        rw [List.filter_cons]
        simp [hc, hmem]
      rw [hcre]
      simp only [diskLoop, hc, if_true]
      by_cases hch : (st.any fun disk => disk.name == dd.name &&
          (disk.size != dd.size_mb || disk.description != diskDescription dd)) = true
      · rw [if_pos hch]
        have hst2 : ∀ disk ∈ st.map (fun disk =>
            if disk.name = dd.name then toDisk dd else disk),
            disk.name ∉ ex → disk.name ∉ rest.map DiskData.name := by
          intro disk hdisk hnex
          obtain ⟨d0, hd0, hval⟩ := List.mem_map.mp hdisk
          have hname : disk.name = d0.name := by
            by_cases hd : d0.name = dd.name
            · rw [← hval]; simp [hd, toDisk]
            · rw [← hval]; simp [hd]
          rw [hname] at hnex ⊢
          have hthis := hst d0 hd0 hnex
          simp only [List.map_cons, List.mem_cons, not_or] at hthis
          exact hthis.2
        rw [ih _ hdds.2 hst2, List.map_map]
        congr 1
        apply List.map_congr_left
        intro d0 hd0
        by_cases hd : d0.name = dd.name
        · have hfr2 : rest.find? (fun dd2 => dd2.name == d0.name) = none := by
            rw [hd]; exact hfr
          have hb : (dd.name == d0.name) = true := by simp [hd]
          simp only [Function.comp, if_pos hd]
          rw [List.find?_cons, hb]
          split
          · next dd2 heq =>
              simp only [toDisk] at heq
              rw [hfr] at heq
              exact Option.noConfusion heq
          · rfl
        · have hb : (dd.name == d0.name) = false := by
            simp only [beq_eq_false_iff_ne, ne_eq]
            intro he; exact hd he.symm
          simp [Function.comp, if_neg hd, List.find?_cons, hb]
      · rw [if_neg hch]
        have hch2 : (st.any fun disk => disk.name == dd.name &&
            (disk.size != dd.size_mb || disk.description != diskDescription dd)) = false := by
          simp only [Bool.not_eq_true] at hch
          exact hch
        have hall := List.any_eq_false.mp hch2
        have hchf : ∀ disk ∈ st, disk.name = dd.name → disk = toDisk dd := by
          intro disk hdisk hname
          have hf := hall disk hdisk
          simp only [hname, beq_self_eq_true, Bool.true_and] at hf
          have h1 : disk.size = dd.size_mb := by
            by_contra hne
            have hx : (disk.size != dd.size_mb) = true := by simpa using hne
            simp [hx] at hf
          have h2 : disk.description = diskDescription dd := by
            by_contra hne
            have hx : (disk.description != diskDescription dd) = true := by simpa using hne
            simp [hx] at hf
          cases disk with
          | mk dn ds dde =>
            simp only at hname h1 h2
            rw [toDisk, ← hname, ← h1, ← h2]
        have hst2 : ∀ disk ∈ st, disk.name ∉ ex →
            disk.name ∉ rest.map DiskData.name := by
          intro disk hdisk hnex
          have hthis := hst disk hdisk hnex
          simp only [List.map_cons, List.mem_cons, not_or] at hthis
          exact hthis.2
        rw [ih _ hdds.2 hst2]
        congr 1
        apply List.map_congr_left
        intro d0 hd0
        by_cases hd : d0.name = dd.name
        · have hfr2 : rest.find? (fun dd2 => dd2.name == d0.name) = none := by
            rw [hd]; exact hfr
          have hb : (dd.name == d0.name) = true := by simp [hd]
          simp [List.find?_cons, hb, hfr2, (hchf d0 hd0 hd).symm]
        · have hb : (dd.name == d0.name) = false := by
            simp only [beq_eq_false_iff_ne, ne_eq]
            intro he; exact hd he.symm
          simp [List.find?_cons, hb]
    · have hc : ex.contains dd.name = false := by simpa using hmem
      have hcre : ((dd :: rest).filter (fun dd2 => !(ex.contains dd2.name))) =
          dd :: (rest.filter (fun dd2 => !(ex.contains dd2.name))) := by
        rw [List.filter_cons]
        simp [hc, hmem]
      rw [hcre]
      simp only [diskLoop, hc, if_false, Bool.false_eq_true]
      have hst2 : ∀ disk ∈ st ++ [toDisk dd], disk.name ∉ ex →
          disk.name ∉ rest.map DiskData.name := by
        intro disk hdisk hnex
        rcases List.mem_append.mp hdisk with hold | hnew
        · have hthis := hst disk hold hnex
          simp only [List.map_cons, List.mem_cons, not_or] at hthis
          exact hthis.2
        · have hde : disk = toDisk dd := by simpa using hnew
          rw [hde]
          simpa [toDisk] using hdds.1
      rw [ih _ hdds.2 hst2, List.map_append]
      have hnewmap : ([toDisk dd].map (fun disk =>
          match rest.find? (fun dd2 => dd2.name == disk.name) with
          | some dd2 => toDisk dd2
          | none => disk)) = [toDisk dd] := by
        have hfr2 : rest.find? (fun dd2 => dd2.name == (toDisk dd).name) = none := by
          simpa [toDisk] using hfr
        simp [hfr2]
      rw [hnewmap]
      have hmapc : st.map (fun disk =>
          match rest.find? (fun dd2 => dd2.name == disk.name) with
          | some dd2 => toDisk dd2
          | none => disk) =
        st.map (fun disk =>
          match (dd :: rest).find? (fun dd2 => dd2.name == disk.name) with
          | some dd2 => toDisk dd2
          | none => disk) := by
        apply List.map_congr_left
        intro d0 hd0
        have hd : ¬ d0.name = dd.name := by
          intro he
          have hthis := hst d0 hd0 (he ▸ hmem)
          simp [List.mem_cons, he] at hthis
        have hb : (dd.name == d0.name) = false := by
          simp only [beq_eq_false_iff_ne, ne_eq]
          intro he; exact hd he.symm
        simp [List.find?_cons, hb]
      rw [hmapc, List.append_assoc]
      rfl

/-- Every operation recorded by the loop is a save or a create named by
one of the processed descriptions; the loop never deletes. -/
theorem diskLoop_snd_names (ex : List String) (dds : List DiskData) :
    ∀ st, ∀ op ∈ (diskLoop ex st dds).2,
      ∃ dd ∈ dds, op = DiskOp.saved dd.name ∨ op = DiskOp.created dd.name := by
  induction dds with
  | nil =>
    intro st op hop
    have h0 : (diskLoop ex st []).2 = [] := rfl
    rw [h0] at hop
    simp at hop
  | cons dd rest ih =>
    intro st op hop
    by_cases hmem : ex.contains dd.name = true
    · simp only [diskLoop, hmem, if_true] at hop
      rcases List.mem_append.mp hop with h1 | h2
      · have hsv : op = DiskOp.saved dd.name := by
          split at h1
          · simpa using h1
          · simp at h1
        exact ⟨dd, List.mem_cons_self dd rest, Or.inl hsv⟩
      · obtain ⟨dd2, hdd2, hor⟩ := ih _ op h2
        exact ⟨dd2, List.mem_cons_of_mem dd hdd2, hor⟩
    · have hmf : ex.contains dd.name = false := by simpa using hmem
      simp only [diskLoop, hmf, Bool.false_eq_true, if_false] at hop
      rcases List.mem_cons.mp hop with h1 | h2
      · exact ⟨dd, List.mem_cons_self dd rest, Or.inr h1⟩
      · obtain ⟨dd2, hdd2, hor⟩ := ih _ op h2
        exact ⟨dd2, List.mem_cons_of_mem dd hdd2, hor⟩

/-- The loop records a create for every description whose name is absent
from the snapshot names. -/
theorem diskLoop_created_mem (ex : List String) (dds : List DiskData) :
    ∀ st, ∀ dd ∈ dds, ex.contains dd.name = false →
      DiskOp.created dd.name ∈ (diskLoop ex st dds).2 := by
  induction dds with
  | nil =>
    intro st dd h
    simp at h
  | cons dd0 rest ih =>
    intro st dd hdd hexf
    rcases List.mem_cons.mp hdd with heq | hrest
    · subst heq
      simp only [diskLoop, hexf, Bool.false_eq_true, if_false]
      exact List.mem_cons_self _ _
    · by_cases hmem : ex.contains dd0.name = true
      · simp only [diskLoop, hmem, if_true]
        exact List.mem_append.mpr (Or.inr (ih _ dd hrest hexf))
      · have hmf : ex.contains dd0.name = false := by simpa using hmem
        simp only [diskLoop, hmf, Bool.false_eq_true, if_false]
        exact List.mem_cons_of_mem _ (ih _ dd hrest hexf)

/-- When the unique description with the given name is among the snapshot
names and every live record with that name already equals the described
record, the loop records no operation touching that name. -/
theorem diskLoop_untouched (ex : List String) (dds : List DiskData) :
    ∀ st (n : String) (dd0 : DiskData), dd0 ∈ dds → dd0.name = n →
    ex.contains n = true → (dds.map DiskData.name).Nodup →
    (∀ disk ∈ st, disk.name = n → disk = toDisk dd0) →
    ∀ op ∈ (diskLoop ex st dds).2,
      op ≠ DiskOp.saved n ∧ op ≠ DiskOp.created n ∧ op ≠ DiskOp.deleted n := by
  induction dds with
  | nil =>
    intro st n dd0 h
    simp at h
  | cons dd rest ih =>
    intro st n dd0 hdd0 hn hex hdds hst op hop
    rw [List.map_cons, List.nodup_cons] at hdds
    by_cases hdn : dd.name = n
    · have hdd0eq : dd0 = dd := by
        rcases List.mem_cons.mp hdd0 with h | h
        · exact h
        · exfalso
          have h1 : dd0.name ∈ rest.map DiskData.name :=
            List.mem_map_of_mem DiskData.name h
          rw [hn, ← hdn] at h1
          exact hdds.1 h1
      subst hdd0eq
      have hexd : ex.contains dd0.name = true := by rw [hdn]; exact hex
      simp only [diskLoop, hexd, if_true] at hop
      have hchf : (st.any fun disk => disk.name == dd0.name &&
          (disk.size != dd0.size_mb || disk.description != diskDescription dd0)) = false := by
        rw [List.any_eq_false]
        intro disk hdisk
        by_cases hdm : disk.name = dd0.name
        · have hde := hst disk hdisk (by rw [hdm]; exact hdn)
          rw [hde]
          simp [toDisk]
        · simp [hdm]
      rw [hchf] at hop
      simp only [Bool.false_eq_true, if_false, List.nil_append] at hop
      obtain ⟨dd2, hdd2, hor⟩ := diskLoop_snd_names ex rest st op hop
      have hne : ¬ dd2.name = n := by
        intro he
        have h1 : dd2.name ∈ rest.map DiskData.name :=
          List.mem_map_of_mem DiskData.name hdd2
        rw [he, ← hdn] at h1
        exact hdds.1 h1
      rcases hor with h | h <;> subst h <;> exact ⟨by simp [hne], by simp [hne], by simp⟩
    · have hdd0r : dd0 ∈ rest := by
        rcases List.mem_cons.mp hdd0 with h | h
        · exfalso; rw [h] at hn; exact hdn hn
        · exact h
      by_cases hmem : ex.contains dd.name = true
      · simp only [diskLoop, hmem, if_true] at hop
        rcases List.mem_append.mp hop with h1 | h2
        · have hsv : op = DiskOp.saved dd.name := by
            split at h1
            · simpa using h1
            · simp at h1
          subst hsv
          exact ⟨by simp [hdn], by simp, by simp⟩
        · refine ih _ n dd0 hdd0r hn hex hdds.2 ?_ op h2
          intro disk hdisk hdn2
          by_cases hch : (st.any fun d2 => d2.name == dd.name &&
              (d2.size != dd.size_mb || d2.description != diskDescription dd)) = true
          · rw [if_pos hch] at hdisk
            obtain ⟨d1, hd1, hval⟩ := List.mem_map.mp hdisk
            by_cases hd1n : d1.name = dd.name
            · rw [if_pos hd1n] at hval
              exfalso
              rw [← hval] at hdn2
              simp only [toDisk] at hdn2
              exact hdn hdn2
            · rw [if_neg hd1n] at hval
              rw [← hval] at hdn2 ⊢
              exact hst d1 hd1 hdn2
          · rw [if_neg hch] at hdisk
            exact hst disk hdisk hdn2
      · have hmf : ex.contains dd.name = false := by simpa using hmem
        simp only [diskLoop, hmf, Bool.false_eq_true, if_false] at hop
        rcases List.mem_cons.mp hop with h1 | h2
        · subst h1
          exact ⟨by simp, by simp [hdn], by simp⟩
        · refine ih _ n dd0 hdd0r hn hex hdds.2 ?_ op h2
          intro disk hdisk hdn2
          rcases List.mem_append.mp hdisk with hold | hnew
          · exact hst disk hold hdn2
          · exfalso
            have hde : disk = toDisk dd := by simpa using hnew
            rw [hde] at hdn2
            simp only [toDisk] at hdn2
            exact hdn hdn2

/-- A name search in a name-unique description list finds exactly the
member carrying that name. -/
theorem find_name_unique (dds : List DiskData) (dd : DiskData)
    (hdds : (dds.map DiskData.name).Nodup) (hmem : dd ∈ dds) :
    dds.find? (fun d2 => d2.name == dd.name) = some dd := by
  induction dds with
  | nil => simp at hmem
  | cons a l ih =>
    rw [List.map_cons, List.nodup_cons] at hdds
    rcases List.mem_cons.mp hmem with heq | hl
    · subst heq
      rw [List.find?_cons]
      simp
    · have hne : (a.name == dd.name) = false := by
        simp only [beq_eq_false_iff_ne, ne_eq]
        intro he
        exact hdds.1 (he ▸ List.mem_map_of_mem DiskData.name hl)
      rw [List.find?_cons, hne]
      exact ih hdds.2 hl

/-- The rewrite applied to a live record by the loop preserves its name. -/
theorem mapF_name (dds : List DiskData) (disk : Disk) :
    (match dds.find? (fun dd : DiskData => dd.name == disk.name) with
     | some dd => toDisk dd
     | none => disk).name = disk.name := by
  split
  · next dd heq =>
      have hp := List.find?_some heq
      simp only [beq_iff_eq] at hp
      simp [toDisk, hp]
  · rfl

/-- The final disk set of sync_vm_disks for a non-empty description list,
derived from the loop characterization and the deletion pass. -/
theorem sync_vm_disks_fst_eq (existing : List Disk) (dds : List DiskData)
    (hdds : (dds.map DiskData.name).Nodup) (hne : dds ≠ []) :
    (sync_vm_disks existing dds).1 =
      ((existing.map (fun disk =>
          match dds.find? (fun dd => dd.name == disk.name) with
          | some dd => toDisk dd
          | none => disk)).filter
        (fun disk => !((existing.map Disk.name).contains disk.name) ||
          (dds.map DiskData.name).contains disk.name)) ++
      (dds.filter (fun dd => !((existing.map Disk.name).contains dd.name))).map toDisk := by
  have hie : dds.isEmpty = false := by
    cases dds with
    | nil => exact absurd rfl hne
    | cons a l => rfl
  simp only [sync_vm_disks, hie, Bool.false_eq_true, if_false]
  rw [diskLoop_fst_eq _ _ _ hdds (fun disk hdisk hnex =>
    absurd (List.mem_map_of_mem Disk.name hdisk) hnex)]
  rw [List.filter_append]
  congr 1
  rw [List.filter_eq_self]
  intro r hr
  obtain ⟨dd, hddmem, hval⟩ := List.mem_map.mp hr
  have hdd2 := List.mem_filter.mp hddmem
  rw [← hval]
  simp only [toDisk]
  rw [Bool.or_eq_true]
  exact Or.inl hdd2.2

end DiskLemmas

/-- C4: disk reconciliation converges the disk set of the entity to
exactly the described set keyed by disk name: an empty description list
deletes every record, a described disk with no existing record of that
name is created, an existing record equal to its description is touched by
no operation, and every existing record whose name is absent from the
descriptions is deleted and absent from the result; on records A10 and
B20 against descriptions A10 and C30 the result is exactly A10 and C30,
with a create of C and a delete of B as the only operations. -/
theorem C4_disk_convergence (existing : List Disk) (vcenter_disks : List DiskData)
    (hex : (existing.map Disk.name).Nodup)
    (hdds : (vcenter_disks.map DiskData.name).Nodup) :
    ((vcenter_disks = [] → (sync_vm_disks existing vcenter_disks).1 = []) ∧
     (∀ r : Disk, r ∈ (sync_vm_disks existing vcenter_disks).1 ↔
        ∃ dd ∈ vcenter_disks, r = toDisk dd) ∧
     ((sync_vm_disks existing vcenter_disks).1.map Disk.name).Nodup ∧
     (∀ dd ∈ vcenter_disks, dd.name ∉ existing.map Disk.name →
        DiskOp.created dd.name ∈ (sync_vm_disks existing vcenter_disks).2) ∧
     (∀ disk ∈ existing, ∀ dd ∈ vcenter_disks, disk = toDisk dd →
        ∀ op ∈ (sync_vm_disks existing vcenter_disks).2,
          op ≠ DiskOp.saved disk.name ∧ op ≠ DiskOp.created disk.name ∧
          op ≠ DiskOp.deleted disk.name) ∧
     (∀ disk ∈ existing, disk.name ∉ vcenter_disks.map DiskData.name →
        DiskOp.deleted disk.name ∈ (sync_vm_disks existing vcenter_disks).2 ∧
        ∀ r ∈ (sync_vm_disks existing vcenter_disks).1, r.name ≠ disk.name)) ∧
    sync_vm_disks [⟨"A", 10, ""⟩, ⟨"B", 20, ""⟩]
        [⟨"A", 10, none, none⟩, ⟨"C", 30, none, none⟩] =
      ([⟨"A", 10, ""⟩, ⟨"C", 30, ""⟩],
       [DiskOp.created "C", DiskOp.deleted "B"]) := by
  refine ⟨?_, by decide⟩
  by_cases hemp : vcenter_disks = []
  · subst hemp
    have h1 : (sync_vm_disks existing []).1 = [] := rfl
    have h2 : (sync_vm_disks existing []).2 =
        existing.map (fun d2 => DiskOp.deleted d2.name) := rfl
    refine ⟨fun _ => rfl, ?_, ?_, ?_, ?_, ?_⟩
    · intro r
      rw [h1]
      simp
    · rw [h1]; exact List.nodup_nil
    · intro dd hdd; simp at hdd
    · intro disk _ dd hdd; simp at hdd
    · intro disk hdisk _
      refine ⟨?_, ?_⟩
      · rw [h2]; exact List.mem_map_of_mem _ hdisk
      · intro r hr; rw [h1] at hr; simp at hr
  · have hfst := sync_vm_disks_fst_eq existing vcenter_disks hdds hemp
    have hie : vcenter_disks.isEmpty = false := by
      cases vcenter_disks with
      | nil => exact absurd rfl hemp
      | cons a l => rfl
    have hsnd : (sync_vm_disks existing vcenter_disks).2 =
        (diskLoop (existing.map Disk.name) existing vcenter_disks).2 ++
        (existing.filter (fun disk =>
          !((vcenter_disks.map DiskData.name).contains disk.name))).map
          (fun disk => DiskOp.deleted disk.name) := by
      simp only [sync_vm_disks, hie, Bool.false_eq_true, if_false]
    have hmemiff : ∀ r : Disk, r ∈ (sync_vm_disks existing vcenter_disks).1 ↔
        ∃ dd ∈ vcenter_disks, r = toDisk dd := by
      intro r
      rw [hfst]
      constructor
      · intro hr
        rcases List.mem_append.mp hr with hf1 | hf2
        · obtain ⟨hmap, hpred⟩ := List.mem_filter.mp hf1
          obtain ⟨disk, hdisk, hval⟩ := List.mem_map.mp hmap
          split at hval
          · next dd heq =>
              exact ⟨dd, List.mem_of_find?_eq_some heq, hval.symm⟩
          · next heq =>
              exfalso
              subst hval
              rw [Bool.or_eq_true] at hpred
              rcases hpred with hp1 | hp2
              · have : disk.name ∈ existing.map Disk.name :=
                  List.mem_map_of_mem Disk.name hdisk
                simp only [Bool.not_eq_true'] at hp1
                simp [this] at hp1
              · have : disk.name ∈ vcenter_disks.map DiskData.name := by
                  simpa using hp2
                obtain ⟨dd2, hdd2, hdn2⟩ := List.mem_map.mp this
                have := List.find?_eq_none.mp heq dd2 hdd2
                simp [hdn2] at this
        · obtain ⟨dd, hddf, hval⟩ := List.mem_map.mp hf2
          exact ⟨dd, List.mem_of_mem_filter hddf, hval.symm⟩
      · rintro ⟨dd, hdd, rfl⟩
        by_cases hmm : dd.name ∈ existing.map Disk.name
        · obtain ⟨disk, hdisk, hdname⟩ := List.mem_map.mp hmm
          refine List.mem_append.mpr (Or.inl (List.mem_filter.mpr ⟨?_, ?_⟩))
          · refine List.mem_map.mpr ⟨disk, hdisk, ?_⟩
            have hfind : vcenter_disks.find? (fun d2 => d2.name == disk.name) =
                some dd := by
              rw [hdname]
              exact find_name_unique vcenter_disks dd hdds hdd
            split
            · next dd2 heq =>
                rw [hfind] at heq
                injection heq with h2
                rw [h2]
            · next heq =>
                rw [hfind] at heq
                exact Option.noConfusion heq
          · simp only [toDisk]
            rw [Bool.or_eq_true]
            right
            simpa using List.mem_map_of_mem DiskData.name hdd
        · refine List.mem_append.mpr (Or.inr (List.mem_map.mpr ⟨dd, ?_, rfl⟩))
          refine List.mem_filter.mpr ⟨hdd, ?_⟩
          simpa using hmm
    refine ⟨fun h => absurd h hemp, hmemiff, ?_, ?_, ?_, ?_⟩
    · rw [hfst, List.map_append]
      have hmapnames : (existing.map (fun disk =>
          match vcenter_disks.find? (fun dd => dd.name == disk.name) with
          | some dd => toDisk dd
          | none => disk)).map Disk.name = existing.map Disk.name := by
        rw [List.map_map]
        exact List.map_congr_left (fun disk _ => mapF_name vcenter_disks disk)
      have hsub1 : ((existing.map (fun disk =>
          match vcenter_disks.find? (fun dd => dd.name == disk.name) with
          | some dd => toDisk dd
          | none => disk)).filter
            (fun disk => !((existing.map Disk.name).contains disk.name) ||
              (vcenter_disks.map DiskData.name).contains disk.name)).map Disk.name
          |>.Sublist (existing.map Disk.name) := by
        rw [← hmapnames]
        exact (List.filter_sublist _).map Disk.name
      have hcrnames : ((vcenter_disks.filter (fun dd =>
          !((existing.map Disk.name).contains dd.name))).map toDisk).map Disk.name =
          (vcenter_disks.filter (fun dd =>
            !((existing.map Disk.name).contains dd.name))).map DiskData.name := by
        rw [List.map_map]
        rfl
      rw [List.nodup_append]
      refine ⟨hex.sublist hsub1, ?_, ?_⟩
      · rw [hcrnames]
        exact hdds.sublist ((List.filter_sublist _).map DiskData.name)
      · intro x hx1 hx2
        have hxex : x ∈ existing.map Disk.name := hsub1.mem hx1
        rw [hcrnames] at hx2
        obtain ⟨dd, hddf, hdn⟩ := List.mem_map.mp hx2
        obtain ⟨_, hpred⟩ := List.mem_filter.mp hddf
        rw [hdn] at hpred
        simp only [Bool.not_eq_true'] at hpred
        simp [hxex] at hpred
    · intro dd hdd hnex
      rw [hsnd]
      refine List.mem_append.mpr (Or.inl ?_)
      exact diskLoop_created_mem _ _ _ dd hdd (by simpa using hnex)
    · intro disk hdisk dd hdd hdeq op hop
      have hdname : dd.name = disk.name := by rw [hdeq, toDisk]
      rw [hsnd] at hop
      rcases List.mem_append.mp hop with h1 | h2
      · refine diskLoop_untouched _ _ existing disk.name dd hdd hdname
          (by simpa using List.mem_map_of_mem Disk.name hdisk) hdds ?_ op h1
        intro d1 hd1 hd1n
        have : d1 = disk := List.inj_on_of_nodup_map hex hd1 hdisk hd1n
        rw [this, hdeq]
      · obtain ⟨d1, hd1f, hval⟩ := List.mem_map.mp h2
        obtain ⟨_, hpred⟩ := List.mem_filter.mp hd1f
        have hne : ¬ d1.name = disk.name := by
          intro he
          rw [← hdname] at he
          simp only [Bool.not_eq_true'] at hpred
          have : dd.name ∈ vcenter_disks.map DiskData.name :=
            List.mem_map_of_mem DiskData.name hdd
          rw [← he] at this
          simp [this] at hpred
        rw [← hval]
        exact ⟨by simp, by simp, by simp [hne]⟩
    · intro disk hdisk hnn
      refine ⟨?_, ?_⟩
      · rw [hsnd]
        refine List.mem_append.mpr (Or.inr ?_)
        refine List.mem_map.mpr ⟨disk, List.mem_filter.mpr ⟨hdisk, ?_⟩, rfl⟩
        simpa using hnn
      · intro r hr
        obtain ⟨dd, hdd, rfl⟩ := (hmemiff r).mp hr
        simp only [toDisk]
        intro he
        exact hnn (he ▸ List.mem_map_of_mem DiskData.name hdd)

/-- Witness for C4 at the concrete two-disk example of the claim, with
both uniqueness hypotheses discharged. -/
theorem C4_disk_convergence_witness :
    sync_vm_disks [⟨"A", 10, ""⟩, ⟨"B", 20, ""⟩]
        [⟨"A", 10, none, none⟩, ⟨"C", 30, none, none⟩] =
      ([⟨"A", 10, ""⟩, ⟨"C", 30, ""⟩],
       [DiskOp.created "C", DiskOp.deleted "B"]) :=
  (C4_disk_convergence [⟨"A", 10, ""⟩, ⟨"B", 20, ""⟩]
    [⟨"A", 10, none, none⟩, ⟨"C", 30, none, none⟩]
    (by decide) (by decide)).2

section ApplyLemmas

theorem filter_length_partition {α : Type} (l : List α) (p : α → Bool) :
    (l.filter p).length + (l.filter (fun a => !p a)).length = l.length := by
  induction l with
  | nil => rfl
  | cons a t ih =>
    rw [List.filter_cons, List.filter_cons]
    by_cases hp : p a = true
    · simp only [hp, Bool.not_true, Bool.false_eq_true, if_false, if_true,
        List.length_cons]
      omega
    · have hp2 : p a = false := by simpa using hp
      simp only [hp2, Bool.not_false, Bool.false_eq_true, if_false, if_true,
        List.length_cons]
      omega

theorem length_filter_lt_iff_any {α : Type} (l : List α) (p : α → Bool) :
    (l.filter (fun a => !p a)).length < l.length ↔ l.any p = true := by
  induction l with
  | nil => simp
  | cons a t ih =>
    rw [List.filter_cons, List.any_cons]
    by_cases hp : p a = true
    · simp only [hp, Bool.not_true, Bool.false_eq_true, if_false, List.length_cons,
        Bool.true_or, iff_true]
      exact Nat.lt_succ_of_le (List.length_filter_le _ _)
    · have hp2 : p a = false := by simpa using hp
      simp only [hp2, Bool.not_false, if_true, List.length_cons, Bool.false_or]
      rw [Nat.succ_lt_succ_iff]
      exact ih

/-- The create loop of apply_changes: counters, error list, cluster state
and created records, characterized as filters over the to-create list. -/
theorem create_fold_eq (o : Oracles) (ct cg g t : String) :
    ∀ (l : List VMData) (st : Store) (r : SyncResult),
    l.foldl (createStep o ct cg g t) (st, r) =
      ({st with
          clusters := l.foldl (fun cl d =>
            if o.failCreate d.name then cl
            else get_or_create_cluster cl (oror d.vcenter_cluster g) ct cg) st.clusters
          vms := st.vms ++ (l.filter (fun d => !o.failCreate d.name)).map
            (fun d => created_vm d g t)},
       {r with
          created := r.created + (l.filter (fun d => !o.failCreate d.name)).length
          errors := r.errors ++ (l.filter (fun d => o.failCreate d.name)).map
            (fun d => createErr d.name)}) := by
  intro l
  induction l with
  | nil =>
    intro st r
    simp
  | cons d rest ih =>
    intro st r
    rw [List.foldl_cons, List.foldl_cons]
    by_cases hf : o.failCreate d.name = true
    · have hstep : createStep o ct cg g t (st, r) d =
          (st, {r with errors := r.errors ++ [createErr d.name]}) := by
        simp [createStep, hf]
      rw [hstep, ih]
      simp [List.filter_cons, hf, List.append_assoc]
    · have hf2 : o.failCreate d.name = false := by simpa using hf
      have hstep : createStep o ct cg g t (st, r) d =
          ({st with
              clusters := get_or_create_cluster st.clusters
                (oror d.vcenter_cluster g) ct cg
              vms := st.vms ++ [created_vm d g t]},
           {r with created := r.created + 1}) := by
        simp [createStep, hf2]
      rw [hstep, ih]
      simp only [List.filter_cons, hf2, Bool.not_false, if_true, Bool.false_eq_true,
        if_false, List.map_cons, List.length_cons, hf2]
      refine congrArg₂ Prod.mk ?_ ?_
      · congr 1
        simp [List.append_assoc]
      · congr 1
        omega

/-- The update loop of apply_changes: counters and error list of the
result, characterized as filters over the to-update list. -/
theorem update_fold_snd (o : Oracles) (ct cg g t : String) :
    ∀ (l : List (VM × ChangeSet)) (st : Store) (r : SyncResult),
    (l.foldl (updateStep o ct cg g t) (st, r)).2 =
      {r with
        updated := r.updated + (l.filter (fun p => !o.failUpdate p.1.name)).length
        errors := r.errors ++ (l.filter (fun p => o.failUpdate p.1.name)).map
          (fun p => updateErr p.1.name)} := by
  intro l
  induction l with
  | nil =>
    intro st r
    simp
  | cons item rest ih =>
    intro st r
    rw [List.foldl_cons]
    by_cases hf : o.failUpdate item.1.name = true
    · have hstep : updateStep o ct cg g t (st, r) item =
          (st, {r with errors := r.errors ++ [updateErr item.1.name]}) := by
        simp [updateStep, hf]
      rw [hstep, ih]
      simp [List.filter_cons, hf, List.append_assoc]
    · have hf2 : o.failUpdate item.1.name = false := by simpa using hf
      have hsnd : (updateStep o ct cg g t (st, r) item).2 =
          {r with updated := r.updated + 1} := by
        simp [updateStep, hf2]
      have hpair : updateStep o ct cg g t (st, r) item =
          ((updateStep o ct cg g t (st, r) item).1,
           (updateStep o ct cg g t (st, r) item).2) := rfl
      rw [hpair, hsnd, ih]
      simp only [List.filter_cons, hf2, Bool.not_false, if_true, Bool.false_eq_true,
        if_false, List.length_cons]
      congr 1
      omega

/-- The mark-missing block leaves the result unchanged, sets the counter,
or appends the single generic error. -/
theorem markPhase_snd_cases (o : Oracles) (t : String) (names : List String)
    (st : Store) (r : SyncResult) :
    (markPhase o t names st r).2 = r ∨
    (markPhase o t names st r).2 = {r with marked_missing := names.length} ∨
    (markPhase o t names st r).2 = {r with errors := r.errors ++ [markErr]} := by
  simp only [markPhase]
  split
  · exact Or.inl rfl
  · split
    · exact Or.inr (Or.inl rfl)
    · exact Or.inr (Or.inr rfl)

/-- The stamping loop runs to completion exactly when no processed name
fails. -/
theorem stampLoop_ok (o : Oracles) (t : String) :
    ∀ (ns : List String) (vms : List VM),
    (stampLoop o t ns vms).2 = !(ns.any o.failStamp) := by
  intro ns
  induction ns with
  | nil => intro vms; rfl
  | cons n rest ih =>
    intro vms
    rw [List.any_cons]
    by_cases hf : o.failStamp n = true
    · simp [stampLoop, hf]
    · have hf2 : o.failStamp n = false := by simpa using hf
      simp [stampLoop, hf2, ih]

/-- The stamping loop preserves names and statuses of every record. -/
theorem stampLoop_status (o : Oracles) (t : String) (names : List String) :
    ∀ (ns : List String) (vms : List VM),
    (∀ w ∈ vms, names.contains w.name = true → w.status = "failed") →
    ∀ w ∈ (stampLoop o t ns vms).1, names.contains w.name = true → w.status = "failed" := by
  intro ns
  induction ns with
  | nil => intro vms h; exact h
  | cons n rest ih =>
    intro vms h
    by_cases hf : o.failStamp n = true
    · simp only [stampLoop, hf, if_true]
      exact h
    · have hf2 : o.failStamp n = false := by simpa using hf
      simp only [stampLoop, hf2, Bool.false_eq_true, if_false]
      refine ih _ ?_
      intro w hw
      obtain ⟨w0, hw0, hval⟩ := List.mem_map.mp hw
      by_cases hn : w0.name = n
      · rw [if_pos hn] at hval
        rw [← hval]
        intro hc
        exact h w0 hw0 (by simpa [stampVM] using hc)
      · rw [if_neg hn] at hval
        rw [← hval]
        exact h w0 hw0

/-- The disk loop of apply_changes preserves all counters and the VM list,
and with no disk failures it also preserves the error list. -/
theorem disk_fold_props (o : Oracles) (vv : List VMData) :
    ∀ (l : List VM) (st : Store) (r : SyncResult),
    ((l.foldl (diskStep o vv) (st, r)).2.created = r.created ∧
     (l.foldl (diskStep o vv) (st, r)).2.updated = r.updated ∧
     (l.foldl (diskStep o vv) (st, r)).2.unchanged = r.unchanged ∧
     (l.foldl (diskStep o vv) (st, r)).2.marked_missing = r.marked_missing) ∧
    (l.foldl (diskStep o vv) (st, r)).1.vms = st.vms ∧
    (∃ E, (l.foldl (diskStep o vv) (st, r)).2.errors = r.errors ++ E) ∧
    ((∀ w ∈ l, o.failDisk w.name = false) →
      (l.foldl (diskStep o vv) (st, r)).2.errors = r.errors) := by
  intro l
  induction l with
  | nil =>
    intro st r
    exact ⟨⟨rfl, rfl, rfl, rfl⟩, rfl, ⟨[], by simp⟩, fun _ => rfl⟩
  | cons w rest ih =>
    intro st r
    rw [List.foldl_cons]
    by_cases hf : o.failDisk w.name = true
    · have hstep : diskStep o vv (st, r) w =
          (st, {r with errors := r.errors ++ [diskErr w.name]}) := by
        simp [diskStep, hf]
      rw [hstep]
      obtain ⟨hcnt, hvms, ⟨E, hE⟩, _⟩ := ih st {r with errors := r.errors ++ [diskErr w.name]}
      refine ⟨hcnt, hvms, ⟨[diskErr w.name] ++ E, by rw [hE]; simp⟩, ?_⟩
      intro hnf
      exact absurd hf (by simp [hnf w (List.mem_cons_self w rest)])
    · have hf2 : o.failDisk w.name = false := by simpa using hf
      have hpair : diskStep o vv (st, r) w =
          ((diskStep o vv (st, r) w).1, r) := by
        simp only [diskStep, hf2, Bool.false_eq_true, if_false]
        split <;> rfl
      have hvmseq : (diskStep o vv (st, r) w).1.vms = st.vms := by
        simp only [diskStep, hf2, Bool.false_eq_true, if_false]
        split
        · rfl
        · rfl
      rw [hpair]
      obtain ⟨hcnt, hvms, ⟨E, hE⟩, herr⟩ := ih (diskStep o vv (st, r) w).1 r
      refine ⟨hcnt, by rw [hvms, hvmseq], ⟨E, hE⟩, ?_⟩
      intro hnf
      exact herr (fun w2 hw2 => hnf w2 (List.mem_cons_of_mem w hw2))

/-- When some processed entity fails to stamp, the mark-missing block ends
in its except branch: statuses are already bulk-set, the counter is left
untouched and the single generic error is appended. -/
theorem markPhase_fail_eq (o : Oracles) (t : String) (names : List String)
    (st : Store) (r : SyncResult) (hne : names.isEmpty = false)
    (hfail : (((st.vms.map (fun w =>
        if names.contains w.name then {w with status := "failed"} else w)).filter
          (fun w => names.contains w.name)).map VM.name).any o.failStamp = true) :
    markPhase o t names st r =
      ({st with vms := (stampLoop o t
          (((st.vms.map (fun w =>
            if names.contains w.name then {w with status := "failed"} else w)).filter
              (fun w => names.contains w.name)).map VM.name)
          (st.vms.map (fun w =>
            if names.contains w.name then {w with status := "failed"} else w))).1},
       {r with errors := r.errors ++ [markErr]}) := by
  simp only [markPhase, hne, Bool.false_eq_true, if_false]
  rw [stampLoop_ok, hfail]
  simp

/-- Pair-eta variant of the create loop characterization, usable as a
rewrite rule for an arbitrary accumulator. -/
theorem create_fold_eq2 (o : Oracles) (ct cg g t : String) (l : List VMData)
    (a : Store × SyncResult) :
    l.foldl (createStep o ct cg g t) a =
      ({a.1 with
          clusters := l.foldl (fun cl d =>
            if o.failCreate d.name then cl
            else get_or_create_cluster cl (oror d.vcenter_cluster g) ct cg) a.1.clusters
          vms := a.1.vms ++ (l.filter (fun d => !o.failCreate d.name)).map
            (fun d => created_vm d g t)},
       {a.2 with
          created := a.2.created + (l.filter (fun d => !o.failCreate d.name)).length
          errors := a.2.errors ++ (l.filter (fun d => o.failCreate d.name)).map
            (fun d => createErr d.name)}) :=
  create_fold_eq o ct cg g t l a.1 a.2

/-- Pair-eta variant of the update loop result characterization. -/
theorem update_fold_snd2 (o : Oracles) (ct cg g t : String)
    (l : List (VM × ChangeSet)) (a : Store × SyncResult) :
    (l.foldl (updateStep o ct cg g t) a).2 =
      {a.2 with
        updated := a.2.updated + (l.filter (fun p => !o.failUpdate p.1.name)).length
        errors := a.2.errors ++ (l.filter (fun p => o.failUpdate p.1.name)).map
          (fun p => updateErr p.1.name)} :=
  update_fold_snd o ct cg g t l a.1 a.2

theorem disk_fold_created (o : Oracles) (vv : List VMData) (l : List VM)
    (a : Store × SyncResult) :
    (l.foldl (diskStep o vv) a).2.created = a.2.created :=
  (disk_fold_props o vv l a.1 a.2).1.1

theorem disk_fold_updated (o : Oracles) (vv : List VMData) (l : List VM)
    (a : Store × SyncResult) :
    (l.foldl (diskStep o vv) a).2.updated = a.2.updated :=
  (disk_fold_props o vv l a.1 a.2).1.2.1

theorem disk_fold_unchanged (o : Oracles) (vv : List VMData) (l : List VM)
    (a : Store × SyncResult) :
    (l.foldl (diskStep o vv) a).2.unchanged = a.2.unchanged :=
  (disk_fold_props o vv l a.1 a.2).1.2.2.1

theorem disk_fold_marked (o : Oracles) (vv : List VMData) (l : List VM)
    (a : Store × SyncResult) :
    (l.foldl (diskStep o vv) a).2.marked_missing = a.2.marked_missing :=
  (disk_fold_props o vv l a.1 a.2).1.2.2.2

theorem disk_fold_vms (o : Oracles) (vv : List VMData) (l : List VM)
    (a : Store × SyncResult) :
    (l.foldl (diskStep o vv) a).1.vms = a.1.vms :=
  (disk_fold_props o vv l a.1 a.2).2.1

theorem disk_fold_errors_nofail (o : Oracles) (vv : List VMData) (l : List VM)
    (a : Store × SyncResult) (h : ∀ w ∈ l, o.failDisk w.name = false) :
    (l.foldl (diskStep o vv) a).2.errors = a.2.errors :=
  (disk_fold_props o vv l a.1 a.2).2.2.2 h

theorem disk_fold_errors_mem (o : Oracles) (vv : List VMData) (l : List VM)
    (a : Store × SyncResult) (e : String) (he : e ∈ a.2.errors) :
    e ∈ (l.foldl (diskStep o vv) a).2.errors := by
  obtain ⟨E, hE⟩ := (disk_fold_props o vv l a.1 a.2).2.2.1
  show e ∈ (l.foldl (diskStep o vv) (a.1, a.2)).2.errors
  rw [hE]
  exact List.mem_append_left E he

theorem markPhase_created (o : Oracles) (t : String) (names : List String)
    (st : Store) (r : SyncResult) :
    (markPhase o t names st r).2.created = r.created := by
  rcases markPhase_snd_cases o t names st r with h | h | h <;> rw [h]

theorem markPhase_updated (o : Oracles) (t : String) (names : List String)
    (st : Store) (r : SyncResult) :
    (markPhase o t names st r).2.updated = r.updated := by
  rcases markPhase_snd_cases o t names st r with h | h | h <;> rw [h]

theorem markPhase_unchanged (o : Oracles) (t : String) (names : List String)
    (st : Store) (r : SyncResult) :
    (markPhase o t names st r).2.unchanged = r.unchanged := by
  rcases markPhase_snd_cases o t names st r with h | h | h <;> rw [h]

/-- The failing form of the mark-missing block: counter untouched, one
generic error appended. -/
theorem markPhase_snd_fail (o : Oracles) (t : String) (names : List String)
    (st : Store) (r : SyncResult) (hne : names.isEmpty = false)
    (hfail : (((st.vms.map (fun w =>
        if names.contains w.name then {w with status := "failed"} else w)).filter
          (fun w => names.contains w.name)).map VM.name).any o.failStamp = true) :
    (markPhase o t names st r).2 = {r with errors := r.errors ++ [markErr]} := by
  rw [markPhase_fail_eq o t names st r hne hfail]

/-- The failing form of the mark-missing block on the store side: the bulk
status update persists, partial stamping persists. -/
theorem markPhase_fst_fail (o : Oracles) (t : String) (names : List String)
    (st : Store) (r : SyncResult) (hne : names.isEmpty = false)
    (hfail : (((st.vms.map (fun w =>
        if names.contains w.name then {w with status := "failed"} else w)).filter
          (fun w => names.contains w.name)).map VM.name).any o.failStamp = true) :
    (markPhase o t names st r).1 =
      {st with vms := (stampLoop o t
          (((st.vms.map (fun w =>
            if names.contains w.name then {w with status := "failed"} else w)).filter
              (fun w => names.contains w.name)).map VM.name)
          (st.vms.map (fun w =>
            if names.contains w.name then {w with status := "failed"} else w))).1} := by
  rw [markPhase_fail_eq o t names st r hne hfail]

/-- The four counters of apply_changes, characterized as filters over the
plan buckets. -/
theorem apply_changes_counters (o : Oracles) (ct cg g t : String)
    (diff : VMDiff) (vv : List VMData) (st : Store) (r0 : SyncResult) :
    (apply_changes o ct cg g t diff vv st r0).2.created =
      r0.created + (diff.to_create.filter (fun d => !o.failCreate d.name)).length ∧
    (apply_changes o ct cg g t diff vv st r0).2.updated =
      r0.updated + (diff.to_update.filter (fun p => !o.failUpdate p.1.name)).length ∧
    (apply_changes o ct cg g t diff vv st r0).2.unchanged = diff.to_skip.length ∧
    (apply_changes o ct cg g t diff vv st r0).2.total_processed =
      diff.to_create.length + diff.to_update.length + diff.to_skip.length := by
  simp only [apply_changes, disk_fold_created, disk_fold_updated, disk_fold_unchanged,
    markPhase_created, markPhase_updated, markPhase_unchanged, update_fold_snd2,
    create_fold_eq2]
  exact ⟨trivial, trivial, trivial, trivial⟩

end ApplyLemmas

/-- C9: after apply_changes (with a fresh result), total_processed counts
the attempted create, update and skip items, excluding mark-missing, so
the sum of the success counters is bounded by it, with strict inequality
exactly when some create or update item failed. -/
theorem C9_total_processed (o : Oracles) (ct cg g t : String)
    (diff : VMDiff) (vv : List VMData) (st : Store) :
    (apply_changes o ct cg g t diff vv st {}).2.total_processed =
      diff.to_create.length + diff.to_update.length + diff.to_skip.length ∧
    (apply_changes o ct cg g t diff vv st {}).2.created +
      (apply_changes o ct cg g t diff vv st {}).2.updated +
      (apply_changes o ct cg g t diff vv st {}).2.unchanged ≤
      (apply_changes o ct cg g t diff vv st {}).2.total_processed ∧
    ((apply_changes o ct cg g t diff vv st {}).2.created +
      (apply_changes o ct cg g t diff vv st {}).2.updated +
      (apply_changes o ct cg g t diff vv st {}).2.unchanged <
      (apply_changes o ct cg g t diff vv st {}).2.total_processed ↔
      (diff.to_create.any (fun d => o.failCreate d.name) = true ∨
       diff.to_update.any (fun p => o.failUpdate p.1.name) = true)) := by
  obtain ⟨hc, hu, hun, ht⟩ := apply_changes_counters o ct cg g t diff vv st {}
  simp only [show ({} : SyncResult).created = 0 from rfl,
    show ({} : SyncResult).updated = 0 from rfl, Nat.zero_add] at hc hu
  have h1 : (diff.to_create.filter (fun d => !o.failCreate d.name)).length ≤
      diff.to_create.length := List.length_filter_le _ _
  have h2 : (diff.to_update.filter (fun p => !o.failUpdate p.1.name)).length ≤
      diff.to_update.length := List.length_filter_le _ _
  have h3 : (diff.to_create.filter (fun d => !o.failCreate d.name)).length <
      diff.to_create.length ↔
      diff.to_create.any (fun d => o.failCreate d.name) = true :=
    length_filter_lt_iff_any _ _
  have h4 : (diff.to_update.filter (fun p => !o.failUpdate p.1.name)).length <
      diff.to_update.length ↔
      diff.to_update.any (fun p => o.failUpdate p.1.name) = true :=
    length_filter_lt_iff_any _ _
  rw [hc, hu, hun, ht]
  refine ⟨rfl, by omega, ?_⟩
  constructor
  · intro hlt
    by_cases ha : (diff.to_create.filter (fun d => !o.failCreate d.name)).length <
        diff.to_create.length
    · exact Or.inl (h3.mp ha)
    · exact Or.inr (h4.mp (by omega))
  · intro hor
    rcases hor with ha | hb
    · have := h3.mpr ha
      omega
    · have := h4.mpr hb
      omega

/-- C6: with exactly one of five to-create items failing during creation
(the scenario of the claim: no updates, no mark-missing, no disk
failures, empty initial store), apply_changes still processes every item:
created is 4, the error list is exactly one message naming the failed
item, and the store afterwards holds exactly the four successfully
created records. -/
theorem C6_create_error_isolation (o : Oracles) (ct cg g t : String)
    (diff : VMDiff) (vv : List VMData) (st : Store)
    (h5 : diff.to_create.length = 5)
    (hu : diff.to_update = []) (hm : diff.to_mark_missing = [])
    (hone : (diff.to_create.filter (fun d => o.failCreate d.name)).length = 1)
    (hnd : ∀ n, o.failDisk n = false)
    (hst0 : st.vms = []) :
    (apply_changes o ct cg g t diff vv st {}).2.created = 4 ∧
    (∃ d ∈ diff.to_create, o.failCreate d.name = true ∧
      (apply_changes o ct cg g t diff vv st {}).2.errors = [createErr d.name]) ∧
    (apply_changes o ct cg g t diff vv st {}).1.vms =
      (diff.to_create.filter (fun d => !o.failCreate d.name)).map
        (fun d => created_vm d g t) := by
  have hpart := filter_length_partition diff.to_create (fun d => o.failCreate d.name)
  refine ⟨?_, ?_, ?_⟩
  · have hcc := (apply_changes_counters o ct cg g t diff vv st {}).1
    rw [hcc]
    show 0 + _ = 4
    omega
  · obtain ⟨d, hd⟩ := List.length_eq_one.mp hone
    have hdin : d ∈ diff.to_create.filter (fun d2 => o.failCreate d2.name) := by
      rw [hd]
      exact List.mem_singleton_self d
    have hdmem : d ∈ diff.to_create := List.mem_of_mem_filter hdin
    have hdfail : o.failCreate d.name = true := (List.mem_filter.mp hdin).2
    refine ⟨d, hdmem, hdfail, ?_⟩
    have herr : (apply_changes o ct cg g t diff vv st {}).2.errors =
        (diff.to_create.filter (fun d2 => o.failCreate d2.name)).map
          (fun d2 => createErr d2.name) := by
      simp only [apply_changes, hu, hm, List.foldl_nil, List.map_nil, markPhase,
        List.isEmpty_nil, if_true]
      rw [disk_fold_errors_nofail _ _ _ _ (fun w _ => hnd w.name)]
      simp only [create_fold_eq2]
      simp
    rw [herr, hd]
    rfl
  · simp only [apply_changes, hu, hm, List.foldl_nil, List.map_nil, markPhase,
      List.isEmpty_nil, if_true]
    rw [disk_fold_vms]
    simp only [create_fold_eq2]
    rw [hst0]
    simp

/-- Witness for C6: five concrete descriptions with the third one failing;
the result reports four creates and the single error naming the failed
item. -/
theorem C6_create_error_isolation_witness :
    (apply_changes (failCreateOn "c") "vmware" "g" "g" "t"
      ⟨[sampleData "a", sampleData "b", sampleData "c", sampleData "d", sampleData "e"],
       [], [], []⟩ [] ⟨[], [], [], []⟩ {}).2.created = 4 ∧
    (apply_changes (failCreateOn "c") "vmware" "g" "g" "t"
      ⟨[sampleData "a", sampleData "b", sampleData "c", sampleData "d", sampleData "e"],
       [], [], []⟩ [] ⟨[], [], [], []⟩ {}).2.errors = [createErr "c"] := by
  have h := C6_create_error_isolation (failCreateOn "c") "vmware" "g" "g" "t"
    ⟨[sampleData "a", sampleData "b", sampleData "c", sampleData "d", sampleData "e"],
     [], [], []⟩ [] ⟨[], [], [], []⟩
    (by decide) rfl rfl (by decide) (fun n => rfl) rfl
  exact ⟨h.1, by decide⟩

/-- C7 counterexample: two entities to mark missing, the save of the
first last-synced stamp raises.  The claim says the failure is caught
individually, the counter only misses that one entity (so it would be 1
here) and the remaining entity is still processed.  The code instead
catches the failure with one guard around the whole block: marked_missing
stays 0, the single generic message names no entity, and the second
entity is never stamped (its extension map stays empty), though both
statuses were already bulk-set to failed. -/
theorem C7_counterexample :
    (apply_changes (failStampOn "m1") "vmware" "g" "g" "t"
      ⟨[], [], [], [sampleVM "m1" "active" "g", sampleVM "m2" "active" "g"]⟩ []
      ⟨[sampleVM "m1" "active" "g", sampleVM "m2" "active" "g"], [], [], []⟩
      {}).2.marked_missing = 0 ∧
    ¬ ((apply_changes (failStampOn "m1") "vmware" "g" "g" "t"
      ⟨[], [], [], [sampleVM "m1" "active" "g", sampleVM "m2" "active" "g"]⟩ []
      ⟨[sampleVM "m1" "active" "g", sampleVM "m2" "active" "g"], [], [], []⟩
      {}).2.marked_missing = 1) ∧
    (apply_changes (failStampOn "m1") "vmware" "g" "g" "t"
      ⟨[], [], [], [sampleVM "m1" "active" "g", sampleVM "m2" "active" "g"]⟩ []
      ⟨[sampleVM "m1" "active" "g", sampleVM "m2" "active" "g"], [], [], []⟩
      {}).2.errors = [markErr] ∧
    (apply_changes (failStampOn "m1") "vmware" "g" "g" "t"
      ⟨[], [], [], [sampleVM "m1" "active" "g", sampleVM "m2" "active" "g"]⟩ []
      ⟨[sampleVM "m1" "active" "g", sampleVM "m2" "active" "g"], [], [], []⟩
      {}).1.vms = [sampleVM "m1" "failed" "g", sampleVM "m2" "failed" "g"] := by
  decide

/-- C7 as amended: a failure while stamping one missing entity falls to
the single guard around the whole mark-missing block — marked_missing is
left at zero, the one generic error is recorded, the rest of apply still
runs (total_processed is still assigned), and the bulk status update to
failed persists for every entity of the missing set. -/
theorem C7_mark_missing_guard (o : Oracles) (ct cg g t : String)
    (diff : VMDiff) (vv : List VMData) (st : Store)
    (hc : diff.to_create = []) (hu : diff.to_update = [])
    (hfail : ∃ w ∈ st.vms,
      (diff.to_mark_missing.map VM.name).contains w.name = true ∧
      o.failStamp w.name = true) :
    (apply_changes o ct cg g t diff vv st {}).2.marked_missing = 0 ∧
    markErr ∈ (apply_changes o ct cg g t diff vv st {}).2.errors ∧
    (apply_changes o ct cg g t diff vv st {}).2.total_processed =
      diff.to_skip.length ∧
    (∀ w ∈ (apply_changes o ct cg g t diff vv st {}).1.vms,
      (diff.to_mark_missing.map VM.name).contains w.name = true →
        w.status = "failed") := by
  obtain ⟨w, hw, hwc, hwf⟩ := hfail
  have hb : (((st.vms.map (fun w2 =>
      if (diff.to_mark_missing.map VM.name).contains w2.name then
        {w2 with status := "failed"} else w2)).filter
        (fun w2 => (diff.to_mark_missing.map VM.name).contains w2.name)).map
        VM.name).any o.failStamp = true := by
    rw [List.any_eq_true]
    refine ⟨w.name, ?_, hwf⟩
    refine List.mem_map.mpr ⟨{w with status := "failed"}, ?_, rfl⟩
    refine List.mem_filter.mpr ⟨?_, hwc⟩
    refine List.mem_map.mpr ⟨w, hw, ?_⟩
    rw [if_pos hwc]
  have hne : (diff.to_mark_missing.map VM.name).isEmpty = false := by
    cases hnm : diff.to_mark_missing.map VM.name with
    | nil => rw [hnm] at hwc; simp at hwc
    | cons a l => rfl
  refine ⟨?_, ?_, ?_, ?_⟩
  · simp only [apply_changes, hc, hu, List.foldl_nil]
    rw [disk_fold_marked,
      markPhase_snd_fail o t (diff.to_mark_missing.map VM.name) st _ hne hb]
  · simp only [apply_changes, hc, hu, List.foldl_nil]
    apply disk_fold_errors_mem
    rw [markPhase_snd_fail o t (diff.to_mark_missing.map VM.name) st _ hne hb]
    simp
  · simp only [apply_changes, hc, hu, List.foldl_nil]
    simp
  · intro w2 hw2
    simp only [apply_changes, hc, hu, List.foldl_nil] at hw2
    rw [disk_fold_vms,
      markPhase_fst_fail o t (diff.to_mark_missing.map VM.name) st _ hne hb] at hw2
    refine stampLoop_status o t (diff.to_mark_missing.map VM.name) _ _ ?_ w2 hw2
    intro w0 hw0 hc0
    obtain ⟨w1, hw1, hval⟩ := List.mem_map.mp hw0
    by_cases hcw1 : (diff.to_mark_missing.map VM.name).contains w1.name = true
    · rw [if_pos hcw1] at hval
      rw [← hval]
    · rw [if_neg hcw1] at hval
      rw [← hval] at hc0
      exact absurd hc0 hcw1

/-- Witness for the amended C7 at the concrete two-entity scenario. -/
theorem C7_mark_missing_guard_witness :
    (apply_changes (failStampOn "m1") "vmware" "g" "g" "t"
      ⟨[], [], [], [sampleVM "m1" "active" "g", sampleVM "m2" "active" "g"]⟩ []
      ⟨[sampleVM "m1" "active" "g", sampleVM "m2" "active" "g"], [], [], []⟩
      {}).2.marked_missing = 0 ∧
    markErr ∈ (apply_changes (failStampOn "m1") "vmware" "g" "g" "t"
      ⟨[], [], [], [sampleVM "m1" "active" "g", sampleVM "m2" "active" "g"]⟩ []
      ⟨[sampleVM "m1" "active" "g", sampleVM "m2" "active" "g"], [], [], []⟩
      {}).2.errors := by
  have h := C7_mark_missing_guard (failStampOn "m1") "vmware" "g" "g" "t"
    ⟨[], [], [], [sampleVM "m1" "active" "g", sampleVM "m2" "active" "g"]⟩ []
    ⟨[sampleVM "m1" "active" "g", sampleVM "m2" "active" "g"], [], [], []⟩
    rfl rfl
    ⟨sampleVM "m1" "active" "g", by decide, by decide, by decide⟩
  exact ⟨h.1, h.2.1⟩

/-- C8: when the connectivity probe reports the source unreachable, the
orchestrator returns immediately with exactly one error and every counter
zero, and the store is untouched (no fetch, no diff, no write). -/
theorem C8_connectivity_failfast (env : SyncEnv) (o : Oracles) (t : String)
    (st : Store) (h : env.probeOk = false) :
    sync_vcenter_vms env o t st = (st, {errors := [connectErr]}) := by
  simp only [sync_vcenter_vms, h]
  rfl

/-- Witness for C8 at a concrete unreachable environment. -/
theorem C8_connectivity_failfast_witness :
    sync_vcenter_vms
      ⟨false, "vmware", "g", Except.ok [], id, fun _ => none⟩ noFail "t"
      ⟨[], [], [], []⟩ =
    (⟨[], [], [], []⟩, {errors := [connectErr]}) :=
  C8_connectivity_failfast ⟨false, "vmware", "g", Except.ok [], id, fun _ => none⟩
    noFail "t" ⟨[], [], [], []⟩ rfl

/-- C10: when no cluster group with the resolved name exists, the status
query returns the all-zero snapshot with no last-sync value, while the
connectivity probe result is still evaluated and reported. -/
theorem C10_missing_group_zeros (env : SyncEnv) (st : Store) (q : Option String)
    (h : st.groups.contains (q.getD env.cluster_group_name) = false) :
    get_sync_status env st q =
      { total_vms := 0, active_vms := 0, offline_vms := 0, failed_vms := 0,
        vcenter_available := env.probeOk, last_sync := none, cluster_count := 0 } := by
  simp only [get_sync_status, h, Bool.false_eq_true, if_false]

/-- Witness for C10 at a concrete store with no cluster groups and a
reachable probe. -/
theorem C10_missing_group_zeros_witness :
    get_sync_status ⟨true, "vmware", "g", Except.ok [], id, fun _ => none⟩
      ⟨[], [], [], []⟩ none =
      { total_vms := 0, active_vms := 0, offline_vms := 0, failed_vms := 0,
        vcenter_available := true, last_sync := none, cluster_count := 0 } :=
  C10_missing_group_zeros ⟨true, "vmware", "g", Except.ok [], id, fun _ => none⟩
    ⟨[], [], [], []⟩ none rfl

end Obudozer
